import Mathlib

/-!
# ud-server: keep-alive connection queue and response builder

A shallow embedding of `src/queue_connections.c` (the indexed min-heap of
keep-alive connections), of `makeResponse`, `sendResponseHeaders` and
`sendResponseFile` in `src/response.c`, and of `readAll` and `sendAll` in
`src/helper.c`, with the properties of the specification stated and proved (or
refuted) over it.

Conventions of the embedding

* C arrays are lists whose length is the size of the array. Every operation
  returns an `Option`; `none` stands for an execution that leaves defined
  behaviour, i.e. an array is indexed outside its bounds.
* `currentSize`, `capacity` and heap slots are C `int`s that the code keeps
  non-negative (`currentSize` is only incremented below `capacity` and only
  decremented when non-zero); they are natural numbers here. A slot read from
  `indexQueue` is an `Int` (the sentinel is `-1`) and is checked before it is
  used as an array index. `MAX_CONNECTIONS` is assumed small enough for
  `2 * element + 2` not to overflow an `int`.
* `time_t` is an `Int` and `difftime(a, b)` is `a - b`.
* The loops are structurally recursive on a fuel argument that the callers
  instantiate with a bound on the number of iterations (`index` for the
  sift-up loop, `currentSize` for `heapify`).
-/

namespace UdServer

/-! ## Data model of `queue_connections.c` -/

/-- The heap element as `queue_connections.c` uses it: the descriptor and the
time of last activity, in the order of the initialiser `{0, 0}`. -/
structure QueueConnectionElementType where
  fd : Int
  priorityTime : Int
  deriving DecidableEq, Repr

/-- The queue: the heap array `connections`, the number of live slots, the
capacity, and the table `indexQueue` from descriptor to heap slot. -/
structure QueueConnectionsType where
  connections : List QueueConnectionElementType
  currentSize : Nat
  capacity : Nat
  indexQueue : List Int
  deriving DecidableEq, Repr

/-- The C function `difftime` on integer times. -/
def difftime (a b : Int) : Int := a - b

/-- Heap slot of the left child: `2 * element + 1`. -/
def leftChildHeap (element : Nat) : Nat := 2 * element + 1

/-- Heap slot of the right child: `2 * element + 2`. -/
def rightChildHeap (element : Nat) : Nat := 2 * element + 2

/-- Heap slot of the parent: `(element - 1) / 2`. For `element = 0` the C
expression is `-1 / 2 = 0`, which is also the value of the truncated
subtraction here. -/
def parentHeap (element : Nat) : Nat := (element - 1) / 2

/-- Read `indexQueue[fd]`. -/
def readIndexQueue (q : QueueConnectionsType) (fd : Int) : Option Int :=
  if 0 ≤ fd then q.indexQueue[fd.toNat]? else none

/-- Assignment `indexQueue[fd] = v`. -/
def writeIndexQueue (q : QueueConnectionsType) (fd : Int) (v : Int) :
    Option QueueConnectionsType :=
  if 0 ≤ fd ∧ fd.toNat < q.indexQueue.length then
    some { q with indexQueue := q.indexQueue.set fd.toNat v }
  else none

/-- The helper `swapConnectionElementHeap(&connections[a], &connections[b])`:
exchanges the two elements and touches nothing else. -/
def swapConnectionElementHeap (cs : List QueueConnectionElementType) (a b : Nat) :
    Option (List QueueConnectionElementType) :=
  match cs[a]?, cs[b]? with
  | some x, some y => some ((cs.set a y).set b x)
  | _, _ => none

/-- The sift-up loop shared by `enqueueConnection` and `updateQueueConnection`:
`while (index != 0 && difftime(t, connections[parentHeap(index)].priorityTime) < 0)`
swap the slot with its parent and continue from the parent. Returns the array
and the final value of `index`. -/
def shiftUpLoop :
    Nat → List QueueConnectionElementType → Int → Nat →
      Option (List QueueConnectionElementType × Nat)
  | fuel, cs, t, index =>
    if index ≠ 0 then
      match cs[parentHeap index]? with
      | none => none
      | some p =>
        if difftime t p.priorityTime < 0 then
          match swapConnectionElementHeap cs index (parentHeap index) with
          | none => none
          | some cs1 =>
            match fuel with
            | 0 => none
            | f + 1 => shiftUpLoop f cs1 t (parentHeap index)
        else some (cs, index)
    else some (cs, index)

/-- The two comparisons at the head of `heapify`: the slot among `index`, its
left child and its right child that holds the smallest time (children are only
looked at when they are below `currentSize`). -/
def heapifySmallest (q : QueueConnectionsType) (index : Nat) : Option Nat :=
  let left := leftChildHeap index
  let right := rightChildHeap index
  let first : Option Nat :=
    if left < q.currentSize then
      match q.connections[left]?, q.connections[index]? with
      | some l, some s =>
        some (if difftime l.priorityTime s.priorityTime < 0 then left else index)
      | _, _ => none
    else some index
  match first with
  | none => none
  | some smallest =>
    if right < q.currentSize then
      match q.connections[right]?, q.connections[smallest]? with
      | some r, some s =>
        some (if difftime r.priorityTime s.priorityTime < 0 then right else smallest)
      | _, _ => none
    else some smallest

/-- The body of `if (smallest != index)` in `heapify` before the recursive
call: the swap of the two slots followed by the two assignments
`indexQueue[connections[index].fd] = index` and
`indexQueue[connections[smallest].fd] = smallest`. -/
def heapifySwap (q : QueueConnectionsType) (index smallest : Nat) :
    Option QueueConnectionsType :=
  match swapConnectionElementHeap q.connections index smallest with
  | none => none
  | some cs =>
    let q1 := { q with connections := cs }
    match q1.connections[index]? with
    | none => none
    | some a =>
      match writeIndexQueue q1 a.fd index with
      | none => none
      | some q2 =>
        match q2.connections[smallest]? with
        | none => none
        | some b => writeIndexQueue q2 b.fd smallest

/-- The function `heapify` (sift-down) with a fuel argument for the recursive
call. -/
def heapifyAux : Nat → QueueConnectionsType → Nat → Option QueueConnectionsType
  | fuel, q, index =>
    match heapifySmallest q index with
    | none => none
    | some smallest =>
      if smallest ≠ index then
        match heapifySwap q index smallest with
        | none => none
        | some q3 =>
          match fuel with
          | 0 => none
          | f + 1 => heapifyAux f q3 smallest
      else some q

/-- The function `heapify(queueConnections, index)`. Every recursive call is
on a slot that is larger than `index` and below `currentSize`, so `currentSize`
calls are never exhausted. -/
def heapify (q : QueueConnectionsType) (index : Nat) : Option QueueConnectionsType :=
  heapifyAux q.currentSize q index

/-- The function `enqueueConnection`. -/
def enqueueConnection (q : QueueConnectionsType) (connection : QueueConnectionElementType) :
    Option QueueConnectionsType :=
  if q.currentSize = q.capacity then some q
  else if q.currentSize < q.connections.length then
    let cs := q.connections.set q.currentSize connection
    let currentSize := q.currentSize + 1
    let indexQueue := currentSize - 1
    match shiftUpLoop indexQueue cs connection.priorityTime indexQueue with
    | none => none
    | some (cs1, indexQueue1) =>
      writeIndexQueue { q with connections := cs1, currentSize := currentSize }
        connection.fd indexQueue1
  else none

/-- The function `updateQueueConnection`. -/
def updateQueueConnection (q : QueueConnectionsType) (fd : Int) (now : Int) :
    Option QueueConnectionsType :=
  match readIndexQueue q fd with
  | none => none
  | some index =>
    if 0 ≤ index then
      match q.connections[index.toNat]? with
      | none => none
      | some old =>
        let oldPriorityTime := old.priorityTime
        let cs := q.connections.set index.toNat { old with priorityTime := now }
        if difftime now oldPriorityTime < 0 then
          match shiftUpLoop index.toNat cs now index.toNat with
          | none => none
          | some (cs1, index1) => writeIndexQueue { q with connections := cs1 } fd index1
        else heapify { q with connections := cs } index.toNat
    else none

/-- The function `dequeueConnection`. -/
def dequeueConnection (q : QueueConnectionsType) : Option QueueConnectionsType :=
  if q.currentSize = 0 then some q
  else
    match q.connections[0]?, q.connections[q.currentSize - 1]? with
    | some first, some last =>
      let fd0 := first.fd
      let fdLast := last.fd
      let cs := (q.connections.set 0 last).set (q.currentSize - 1) ⟨0, 0⟩
      let q1 := { q with connections := cs, currentSize := q.currentSize - 1 }
      match writeIndexQueue q1 fd0 (-1) with
      | none => none
      | some q2 =>
        match writeIndexQueue q2 fdLast 0 with
        | none => none
        | some q3 => heapify q3 0
    | _, _ => none

/-- The function `dequeueConnectionByFd`. -/
def dequeueConnectionByFd (q : QueueConnectionsType) (fd : Int) :
    Option QueueConnectionsType :=
  if q.currentSize = 0 then some q
  else
    match readIndexQueue q fd with
    | none => none
    | some index =>
      if index = -1 then some q
      else
        match q.connections[q.currentSize - 1]? with
        | none => none
        | some last =>
          let fdLast := last.fd
          if 0 ≤ index then
            match swapConnectionElementHeap q.connections index.toNat (q.currentSize - 1) with
            | none => none
            | some cs =>
              let cs1 := cs.set (q.currentSize - 1) ⟨0, 0⟩
              let q1 := { q with connections := cs1, currentSize := q.currentSize - 1 }
              match writeIndexQueue q1 fd (-1) with
              | none => none
              | some q2 =>
                match writeIndexQueue q2 fdLast index with
                | none => none
                | some q3 => heapify q3 index.toNat
          else none

/-- The function `peekQueueConnections`: the root, or `{0, 0}` when the queue
is empty. The queue is not an output: it is only read. -/
def peekQueueConnections (q : QueueConnectionsType) : Option QueueConnectionElementType :=
  if q.currentSize = 0 then some ⟨0, 0⟩ else q.connections[0]?

/-! ## Sequences of queue operations -/

/-- One call on the queue. -/
inductive QueueOp where
  | enqueue (connection : QueueConnectionElementType)
  | update (fd : Int) (now : Int)
  | dequeueByFd (fd : Int)
  | dequeue
  deriving DecidableEq, Repr

/-- Run one call. -/
def applyOp (q : QueueConnectionsType) : QueueOp → Option QueueConnectionsType
  | .enqueue c => enqueueConnection q c
  | .update fd now => updateQueueConnection q fd now
  | .dequeueByFd fd => dequeueConnectionByFd q fd
  | .dequeue => dequeueConnection q

/-- Run a sequence of calls, left to right. -/
def applyOps (q : QueueConnectionsType) : List QueueOp → Option QueueConnectionsType
  | [] => some q
  | op :: ops =>
    match applyOp q op with
    | none => none
    | some q1 => applyOps q1 ops

/-- An empty queue over arrays of `n` heap slots and `m` table entries, every
table entry being the sentinel `-1`. -/
def emptyQueue (n m : Nat) : QueueConnectionsType :=
  { connections := List.replicate n ⟨0, 0⟩, currentSize := 0, capacity := n,
    indexQueue := List.replicate m (-1) }


/-- Call `peekQueueConnections` and then `dequeueConnection`, `n` times over,
collecting the roots that were observed. -/
def drainQueue : Nat → QueueConnectionsType →
    Option (List QueueConnectionElementType × QueueConnectionsType)
  | 0, q => some ([], q)
  | n + 1, q =>
    match peekQueueConnections q with
    | none => none
    | some root =>
      match dequeueConnection q with
      | none => none
      | some q1 =>
        match drainQueue n q1 with
        | none => none
        | some (roots, q2) => some (root :: roots, q2)

/-- The queue of the priority-update scenario: fds 4, 5, 6 enqueued at times
100, 101, 102 into an empty queue of four slots. -/
def scenarioQueue : QueueConnectionsType :=
  { connections := [⟨4, 100⟩, ⟨5, 101⟩, ⟨6, 102⟩, ⟨0, 0⟩], currentSize := 3, capacity := 4,
    indexQueue := [-1, -1, -1, -1, 0, 1, 2, -1] }

/-! ## Predicates of the specification -/

/-- The live part of the heap array: slots `0 .. currentSize - 1`. -/
def liveElements (q : QueueConnectionsType) : List QueueConnectionElementType :=
  q.connections.take q.currentSize

/-- The time stored in slot `i` of a heap array (`0` outside the array). -/
def keyAt (cs : List QueueConnectionElementType) (i : Nat) : Int :=
  ((cs[i]?).getD ⟨0, 0⟩).priorityTime

/-- Min-heap order on the first `n` slots: no slot is smaller than its parent. -/
def HeapOn (cs : List QueueConnectionElementType) (n : Nat) : Prop :=
  ∀ i, 0 < i → i < n → keyAt cs (parentHeap i) ≤ keyAt cs i

/-- The heap property of the queue. -/
def HeapProperty (q : QueueConnectionsType) : Prop :=
  HeapOn q.connections q.currentSize

/-- Slot-table consistency: every live slot `i` holds an element whose
descriptor is mapped to `i` by `indexQueue`. -/
def SlotConsistent (q : QueueConnectionsType) : Prop :=
  ∀ i, i < q.currentSize →
    ∃ e, q.connections[i]? = some e ∧ readIndexQueue q e.fd = some (i : Int)

/-- Every live element carries a descriptor inside the table `indexQueue`. -/
def FdsInRange (q : QueueConnectionsType) : Prop :=
  ∀ e ∈ liveElements q, 0 ≤ e.fd ∧ e.fd < q.indexQueue.length

/-- Heap order on the first `n` slots except possibly between slot `i` and its
children; the children of `i` are not smaller than the parent of `i`. -/
def HeapExceptDown (cs : List QueueConnectionElementType) (n i : Nat) : Prop :=
  (∀ k, 0 < k → k < n → parentHeap k ≠ i → keyAt cs (parentHeap k) ≤ keyAt cs k) ∧
  (∀ k, 0 < k → k < n → parentHeap k = i → 0 < i → keyAt cs (parentHeap i) ≤ keyAt cs k)

/-- Heap order on the first `n` slots except possibly between slot `i` and its
parent; the children of `i` are not smaller than the parent of `i`. -/
def HeapExceptUp (cs : List QueueConnectionElementType) (n i : Nat) : Prop :=
  (∀ k, 0 < k → k < n → k ≠ i → keyAt cs (parentHeap k) ≤ keyAt cs k) ∧
  (∀ k, 0 < k → k < n → parentHeap k = i → 0 < i → keyAt cs (parentHeap i) ≤ keyAt cs k)

/-! ## Data model of `response.c`

C strings are lists of characters (the bytes before the terminating NUL).
The file system, the clock, the MIME detector and the constants declared in
headers that are not part of the sources are collected in `ResponseEnv`.
`makeResponse` returns an `Except`: `die` is the call of `die(...)` that ends
the process, `undefinedBehaviour` is a write outside a character array. -/

namespace Response

/-- One node of the request header list (`struct Header` of `header.h`); the
`next` pointer is the list structure. -/
structure Header where
  name : List Char
  value : List Char
  deriving DecidableEq, Repr

/-- Modelled from the spec: the state enumeration is declared in a header that
is not under `src/`. `STATE_CONNECTION_SEND_BODY` and `STATE_CONNECTION_DONE`
are the two names `response.c` uses; the other three are the remaining states
of the specification (READING_REQUEST, SENDING_HEADERS, KEEP_ALIVE_IDLE). -/
inductive StateConnection where
  | STATE_CONNECTION_RECV
  | STATE_CONNECTION_SEND_HEADERS
  | STATE_CONNECTION_SEND_BODY
  | STATE_CONNECTION_DONE
  | STATE_CONNECTION_KEEP_ALIVE
  deriving DecidableEq, Repr

/-- The connection record as `response.c` uses it (there the struct is also
called `QueueConnectionElementType`): the fields read or written by
`makeResponse`, `sendResponseHeaders` and `sendResponseFile`. -/
structure QueueConnectionElementType where
  clientFd : Int
  state : StateConnection
  doneForClose : Bool
  keepAlive : Bool
  protocolVersion : List Char
  absolutePath : List Char
  requestHeaders : List Header
  responseStatusCode : Nat
  responseBufferHeaders : List Char
  responseBufferHeadersOffset : Nat
  responseBufferHeadersLength : Nat
  bodyFd : Int
  bodyLength : Int
  bodyOffset : Int
  deriving DecidableEq, Repr

/-- What `open` followed by `fstat` yields for a file that could be opened:
the descriptor, `st_size` and `st_mtime`. -/
structure OpenedFile where
  fd : Int
  size : Int
  mtime : Int
  deriving DecidableEq, Repr

/-- The two ways in which `makeResponse` does not return. -/
inductive Failure where
  | die
  | undefinedBehaviour
  deriving DecidableEq, Repr

/-- The surroundings of `makeResponse`: system calls, the libmagic detector
and the constants of headers that are not under `src/`. -/
structure ResponseEnv where
  /-- `open(path, O_RDONLY)` and `fstat`; on failure the value of `errno`. -/
  openFile : List Char → Except Nat OpenedFile
  /-- `OPTIONS.htmlDir`. -/
  htmlDir : List Char
  /-- The macro `HTTP_STATUS_REASON`. -/
  statusReason : Nat → List Char
  /-- The constant `KEEP_ALIVE_TIMEOUT`. -/
  keepAliveTimeout : Int
  /-- `getcwd`; `none` when it returns `NULL`. -/
  cwd : Option (List Char)
  /-- Whether `magic_load` succeeds on the database path. -/
  magicLoad : List Char → Bool
  /-- `magic_descriptor` on a descriptor; `none` when it returns `NULL`. -/
  magicDescriptor : Int → Option (List Char)
  /-- `time(NULL)`. -/
  now : Int
  /-- `strftime(.., "%a, %d %b %Y %H:%M:%S GMT", localtime(&t))`. -/
  strftime : Int → List Char

/-- The value of `errno` for a missing file. -/
def ENOENT : Nat := 2

/-- Modelled from the spec: the status codes 200, 404 and 500 of the header
that declares `HTTP_STATUS_OK`, `HTTP_STATUS_NOT_FOUND` and
`HTTP_STATUS_INTERNAL_SERVER_ERROR`. -/
def HTTP_STATUS_OK : Nat := 200

/-- Modelled from the spec: status code 404 (see `HTTP_STATUS_OK`). -/
def HTTP_STATUS_NOT_FOUND : Nat := 404

/-- Modelled from the spec: status code 500 (see `HTTP_STATUS_OK`). -/
def HTTP_STATUS_INTERNAL_SERVER_ERROR : Nat := 500

/-- Modelled from the spec: `getHeader` (`header.c` is not under `src/`, only
its declaration in `header.h`). The lookup compares names case-insensitively
and returns the value of the first matching entry, `none` standing for `NULL`. -/
def getHeader (header : List Header) (name : List Char) : Option (List Char) :=
  match header.find? (fun h => h.name.map Char.toLower == name.map Char.toLower) with
  | some h => some h.value
  | none => none

/-- The C function `strcmp` on NUL-terminated strings: the difference of the
first pair of bytes that differ. -/
def strcmp : List Char → List Char → Int
  | [], [] => 0
  | [], b :: _ => - (b.toNat : Int)
  | a :: _, [] => (a.toNat : Int)
  | a :: as, b :: bs => if a = b then strcmp as bs else (a.toNat : Int) - (b.toNat : Int)

/-- The helper `strCopySafe(dest, src)` of `helper.c` for a destination array
of `destSize` bytes: copies `strlen(src) + 1` bytes. -/
def strCopySafe (destSize : Nat) (src : List Char) : Except Failure (List Char) :=
  if src.length + 1 ≤ destSize then .ok src else .error .undefinedBehaviour

/-- The C function `strncat(dest, src, n)` for a destination array of
`destSize` bytes: appends at most `n` bytes of `src` and a NUL. -/
def strncat (destSize : Nat) (dest src : List Char) (n : Nat) : Except Failure (List Char) :=
  if dest.length + (src.take n).length + 1 ≤ destSize then .ok (dest ++ src.take n)
  else .error .undefinedBehaviour

/-- Output of the conversions `%u` and `%lu`. -/
def formatUnsigned (n : Nat) : List Char := Nat.toDigits 10 n

/-- Output of the conversion `%i`. -/
def formatInt (i : Int) : List Char :=
  if i < 0 then '-' :: Nat.toDigits 10 i.natAbs else Nat.toDigits 10 i.toNat

/-- The call `snprintf(responseHeader + offset, responseHeaderSize - offset, ..)`
whose formatted output is `s`, on the staging array whose C string so far is
`buf`. The size argument is a `size_t`: when `offset` exceeds the array size it
wraps around and the output is written past the array. Otherwise at most
`size - offset - 1` bytes and a NUL are stored at `offset`, and the result is
the full length of `s` added to `offset`. -/
def snprintfAt (size : Nat) (state : List Char × Nat) (s : List Char) :
    Except Failure (List Char × Nat) :=
  let buf := state.1
  let offset := state.2
  if size < offset then .error .undefinedBehaviour
  else if size - offset = 0 then .ok (buf, offset + s.length)
  else if buf.length < offset then .ok (buf, offset + s.length)
  else .ok (buf.take offset ++ s.take (size - offset - 1), offset + s.length)

/-- The chain of `snprintf` calls of `makeResponse`, one per formatted piece,
starting at the head of the array with `offset = 0`. -/
def composeHeaders (size : Nat) (state : List Char × Nat) :
    List (List Char) → Except Failure (List Char × Nat)
  | [] => .ok state
  | s :: rest =>
    match snprintfAt size state s with
    | .error e => .error e
    | .ok state1 => composeHeaders size state1 rest

/-- Part 1 of `makeResponse`: open the body. Returns the opened file and the
status code. The test `errno == ENOENT` sees the value that the failed `open`
left; the error path fits its array, which is sized for the longer of the two
template names. -/
def openBody (env : ResponseEnv) (absolutePath : List Char) :
    Except Failure (OpenedFile × Nat) :=
  match env.openFile absolutePath with
  | .ok file => .ok (file, HTTP_STATUS_OK)
  | .error errno =>
    let status :=
      if errno = ENOENT then HTTP_STATUS_NOT_FOUND else HTTP_STATUS_INTERNAL_SERVER_ERROR
    let errorPath :=
      if errno = ENOENT then env.htmlDir ++ "/error/404.html".toList
      else env.htmlDir ++ "/error/error.html".toList
    match env.openFile errorPath with
    | .error _ => .error .die
    | .ok file => .ok (file, status)

/-- The MIME part of `makeResponse`: load the magic database next to the
working directory, ask for the type of the body descriptor, copy it into
`char mimeType[150]` and append `; charset=UTF-8` when
`strcmp(mimeType, "text/") > 0`. -/
def detectMimeType (env : ResponseEnv) (bodyFd : Int) : Except Failure (List Char) :=
  match env.cwd with
  | none => .error .die
  | some cwd =>
    match strncat 1024 cwd "/include/web.magic.mgc:/usr/share/misc/magic.mgc".toList 49 with
    | .error e => .error e
    | .ok magicPath =>
      if env.magicLoad magicPath then
        match env.magicDescriptor bodyFd with
        | none => .error .undefinedBehaviour
        | some magicMimeType =>
          match strCopySafe 150 magicMimeType with
          | .error e => .error e
          | .ok mimeType =>
            if strcmp mimeType "text/".toList > 0 then
              strncat 150 mimeType "; charset=UTF-8".toList 16
            else .ok mimeType
      else .error .die

/-- The keep-alive test of `makeResponse`:
`connectionHeader != NULL && *connectionHeader == 'k'`. -/
def keepAliveRequested (connectionHeader : Option (List Char)) : Bool :=
  match connectionHeader with
  | some ('k' :: _) => true
  | _ => false

/-- The formatted pieces that `makeResponse` hands to `snprintf`, in order. -/
def responseHeaderLines (env : ResponseEnv) (protocolVersion : List Char)
    (responseStatusCode : Nat) (statusCodeReason : List Char) (keepAlive : Bool)
    (bodyLength : Int) (mimeType currentDate lastModifiedDate : List Char) :
    List (List Char) :=
  [protocolVersion ++ " ".toList ++ formatUnsigned responseStatusCode ++ " ".toList ++
      statusCodeReason ++ "\n".toList] ++
  (if keepAlive then
    ["connection: ".toList ++ "keep-alive".toList ++ "\n".toList,
     "keep-alive: ".toList ++ ("timeout=".toList ++ formatInt env.keepAliveTimeout) ++
       "\n".toList]
   else ["connection: close\n".toList]) ++
  ["content-length: ".toList ++ formatUnsigned (bodyLength % 2 ^ 64).toNat ++ "\n".toList,
   "content-type: ".toList ++ mimeType ++ "\n".toList,
   "date: ".toList ++ currentDate ++ "\n".toList,
   "last-modified: ".toList ++ lastModifiedDate ++ "\n".toList,
   "server: ".toList ++ "Undefined Behaviour Server".toList ++ "\n".toList,
   "cache-control: ".toList ++ "private, no-cache, no-store, must-revalidate".toList ++
     "\n\n".toList]

/-- The function `makeResponse`. -/
def makeResponse (env : ResponseEnv) (connection : QueueConnectionElementType) :
    Except Failure QueueConnectionElementType :=
  match openBody env connection.absolutePath with
  | .error e => .error e
  | .ok (file, responseStatusCode) =>
    let responseHeaderSize := 1024
    match strCopySafe 33 (env.statusReason responseStatusCode) with
    | .error e => .error e
    | .ok statusCodeReason =>
      match detectMimeType env file.fd with
      | .error e => .error e
      | .ok mimeType =>
        let lastModifiedDate := env.strftime file.mtime
        let currentDate := env.strftime env.now
        if lastModifiedDate.length < 100 ∧ currentDate.length < 100 then
          let connectionHeader := getHeader connection.requestHeaders "connection".toList
          let keepAlive := keepAliveRequested connectionHeader
          match composeHeaders responseHeaderSize ([], 0)
              (responseHeaderLines env connection.protocolVersion responseStatusCode
                statusCodeReason keepAlive file.size mimeType currentDate lastModifiedDate) with
          | .error e => .error e
          | .ok (responseHeader, offset) =>
            .ok { connection with
                  responseStatusCode := responseStatusCode
                  bodyFd := file.fd
                  bodyLength := file.size
                  bodyOffset := 0
                  keepAlive := keepAlive
                  responseBufferHeadersOffset := 0
                  responseBufferHeadersLength := offset
                  responseBufferHeaders := responseHeader }
        else .error .undefinedBehaviour

/-- A request for `/hello.txt` over the given protocol version with the given
request headers. -/
def sampleConnection (protocolVersion : List Char) (requestHeaders : List Header) :
    QueueConnectionElementType :=
  { clientFd := 7, state := .STATE_CONNECTION_SEND_HEADERS, doneForClose := false,
    keepAlive := false, protocolVersion := protocolVersion,
    absolutePath := "/srv/hello.txt".toList, requestHeaders := requestHeaders,
    responseStatusCode := 0, responseBufferHeaders := [], responseBufferHeadersOffset := 0,
    responseBufferHeadersLength := 0, bodyFd := -1, bodyLength := 0, bodyOffset := 0 }

/-- A document root that holds `/srv/hello.txt` (11 bytes, descriptor 9) and the
two error templates; the detector reports the given MIME type. -/
def sampleEnv (mime : List Char) : ResponseEnv :=
  { openFile := fun path =>
      if path = "/srv/hello.txt".toList then .ok ⟨9, 11, 1000⟩
      else if path = "/srv/error/404.html".toList then .ok ⟨10, 153, 900⟩
      else if path = "/srv/error/error.html".toList then .ok ⟨11, 160, 900⟩
      else .error ENOENT
    htmlDir := "/srv".toList
    statusReason := fun code =>
      if code = 200 then "OK".toList
      else if code = 404 then "Not Found".toList
      else "Internal Server Error".toList
    keepAliveTimeout := 5
    cwd := some "/opt/ud".toList
    magicLoad := fun _ => true
    magicDescriptor := fun _ => some mime
    now := 2000
    strftime := fun t =>
      if t = 2000 then "Tue, 02 Jan 2024 10:00:00 GMT".toList
      else "Mon, 01 Jan 2024 09:00:00 GMT".toList }

end Response

/-! ## Non-blocking I/O: `sendResponseHeaders`, `sendResponseFile`, `readAll`, `sendAll`

The results of the system calls are an input: a list with one entry per call,
in the order of the calls. A function consumes the entries of the calls it
makes and returns the entries it did not use. -/

/-- Result of one call of `send` or `sendfile`: the non-negative return value,
or `-1` with `errno` being `EINTR`, `EAGAIN`/`EWOULDBLOCK`, or anything else. -/
inductive SendResult where
  | bytes (n : Nat)
  | eintr
  | eagain
  | error
  deriving DecidableEq, Repr

/-- Result of one call of `recv`: the bytes received (none when the peer has
closed), or `-1` with `errno` being `EINTR`, `EAGAIN`/`EWOULDBLOCK`, or
anything else. -/
inductive RecvResult where
  | data (chunk : List Char)
  | eintr
  | eagain
  | error
  deriving DecidableEq, Repr

/-- Why a list of results does not describe a run that returns: the list ends
while the loop is about to make another call, a result transfers more bytes
than the call asked for, or the code accesses memory outside an array. -/
inductive IoFailure where
  | moreResults
  | invalidResult
  | undefinedBehaviour
  deriving DecidableEq, Repr

/-- Number of bytes accepted by the calls of a list of results. -/
def acceptedBytes : List SendResult → Nat
  | [] => 0
  | .bytes n :: rest => n + acceptedBytes rest
  | _ :: rest => acceptedBytes rest

/-- Whether a list of results has a hard error or a call that transferred no
byte. -/
def hasClosingResult : List SendResult → Bool
  | [] => false
  | .bytes n :: rest => n == 0 || hasClosingResult rest
  | .error :: _ => true
  | _ :: rest => hasClosingResult rest

/-- The bytes received by the calls of a list of results, in order. -/
def receivedBytes : List RecvResult → List Char
  | [] => []
  | .data chunk :: rest => chunk ++ receivedBytes rest
  | _ :: rest => receivedBytes rest

namespace Response

/-- The function `sendResponseHeaders`. Each call of `send` asks for
`responseBufferHeadersLength - responseBufferHeadersOffset` bytes, a `size_t`
that wraps around when the offset is past the length. -/
def sendResponseHeaders :
    List SendResult → QueueConnectionElementType →
      Except IoFailure (QueueConnectionElementType × List SendResult)
  | [], _ => .error .moreResults
  | r :: rest, connection =>
    if connection.responseBufferHeadersLength < connection.responseBufferHeadersOffset then
      .error .undefinedBehaviour
    else
      match r with
      | .eintr => sendResponseHeaders rest connection
      | .eagain =>
        if connection.responseBufferHeadersOffset = connection.responseBufferHeadersLength then
          .ok ({ connection with
                  state := .STATE_CONNECTION_SEND_BODY
                  responseBufferHeadersOffset := 0 }, rest)
        else .ok (connection, rest)
      | .error => .ok ({ connection with doneForClose := true }, rest)
      | .bytes bytesSend =>
        if connection.responseBufferHeadersLength - connection.responseBufferHeadersOffset
            < bytesSend then .error .invalidResult
        else
          let c1 := { connection with
            responseBufferHeadersOffset := connection.responseBufferHeadersOffset + bytesSend }
          if bytesSend = 0 then .ok ({ c1 with doneForClose := true }, rest)
          else if c1.responseBufferHeadersOffset = c1.responseBufferHeadersLength then
            .ok ({ c1 with
                    state := .STATE_CONNECTION_SEND_BODY
                    responseBufferHeadersOffset := 0 }, rest)
          else sendResponseHeaders rest c1

/-- The `while (1)` loop of `sendResponseFile`. Each call of `sendfile` asks
for `bodyLength - bodyOffset` bytes converted to `size_t` and advances
`bodyOffset` by the bytes it transferred. -/
def sendResponseFileLoop :
    List SendResult → QueueConnectionElementType →
      Except IoFailure (QueueConnectionElementType × List SendResult)
  | [], _ => .error .moreResults
  | r :: rest, connection =>
    match r with
    | .eintr => sendResponseFileLoop rest connection
    | .eagain =>
      if connection.bodyOffset = connection.bodyLength then
        .ok ({ connection with
                state := .STATE_CONNECTION_DONE
                bodyOffset := 0
                bodyFd := -1 }, rest)
      else .ok (connection, rest)
    | .error => .ok ({ connection with doneForClose := true }, rest)
    | .bytes bytesSend =>
      if ((connection.bodyLength - connection.bodyOffset) % 2 ^ 64).toNat < bytesSend then
        .error .invalidResult
      else
        let c1 := { connection with bodyOffset := connection.bodyOffset + bytesSend }
        if bytesSend = 0 then .ok ({ c1 with doneForClose := true }, rest)
        else if c1.bodyOffset = c1.bodyLength then
          .ok ({ c1 with
                  state := .STATE_CONNECTION_DONE
                  bodyOffset := 0
                  bodyFd := -1 }, rest)
        else sendResponseFileLoop rest c1

/-- The function `sendResponseFile`: the test on `bodyFd` and `bodyLength`,
then the loop. -/
def sendResponseFile (results : List SendResult) (connection : QueueConnectionElementType) :
    Except IoFailure (QueueConnectionElementType × List SendResult) :=
  if connection.bodyFd = -1 ∨ connection.bodyLength ≤ 0 then
    .ok ({ connection with state := .STATE_CONNECTION_DONE, bodyOffset := 0 }, results)
  else sendResponseFileLoop results connection

/-- The two inequalities between offsets and lengths of a connection record. -/
def OffsetsWithinLengths (connection : QueueConnectionElementType) : Prop :=
  connection.responseBufferHeadersOffset ≤ connection.responseBufferHeadersLength ∧
  connection.bodyOffset ≤ connection.bodyLength

/-- The text that `makeResponse` formats for a response: status line,
connection lines, `content-length`, `content-type`, `date`, `last-modified`,
`server`, `cache-control` and the closing empty line. -/
def headerBlockText (protocolVersion : List Char) (responseStatusCode : Nat)
    (statusCodeReason : List Char) (keepAlive : Bool) (keepAliveTimeout : Int)
    (bodyLength : Int) (mimeType currentDate lastModifiedDate : List Char) : List Char :=
  protocolVersion ++ " ".toList ++ Nat.toDigits 10 responseStatusCode ++ " ".toList ++
    statusCodeReason ++ "\n".toList ++
  (if keepAlive then
    "connection: keep-alive\n".toList ++
    "keep-alive: timeout=".toList ++ formatInt keepAliveTimeout ++ "\n".toList
   else "connection: close\n".toList) ++
  "content-length: ".toList ++ Nat.toDigits 10 (bodyLength % 2 ^ 64).toNat ++ "\n".toList ++
  "content-type: ".toList ++ mimeType ++ "\n".toList ++
  "date: ".toList ++ currentDate ++ "\n".toList ++
  "last-modified: ".toList ++ lastModifiedDate ++ "\n".toList ++
  "server: Undefined Behaviour Server\n".toList ++
  "cache-control: private, no-cache, no-store, must-revalidate\n".toList ++
  "\n".toList

/-- A record in the body phase whose body is an empty file that was opened as
descriptor 9. -/
def emptyBodyConnection : QueueConnectionElementType :=
  { sampleConnection "HTTP/1.1".toList [] with
    state := .STATE_CONNECTION_SEND_BODY, responseStatusCode := 200, bodyFd := 9,
    bodyLength := 0, bodyOffset := 0 }

/-- A record in the header phase with 40 header bytes, 10 of them sent, and a
body of 11 bytes on descriptor 9. -/
def headerPhaseConnection : QueueConnectionElementType :=
  { sampleConnection "HTTP/1.1".toList [] with
    state := .STATE_CONNECTION_SEND_HEADERS, responseStatusCode := 200,
    responseBufferHeadersOffset := 10, responseBufferHeadersLength := 40,
    bodyFd := 9, bodyLength := 11, bodyOffset := 0 }

end Response

/-! ## `helper.c` -/

namespace Helper

/-- Conversion of an unsigned value to `int` (32 bits, two's complement). -/
def toInt32 (x : Nat) : Int :=
  if x % 2 ^ 32 < 2 ^ 31 then (x % 2 ^ 32 : Nat) else ((x % 2 ^ 32 : Nat) : Int) - 2 ^ 32

/-- What `recv(fd, buffer + totalBytesRead, ..)` does to the array: the chunk
is stored from index `totalBytesRead` on. -/
def storeChunk (buffer : List Char) (totalBytesRead : Nat) (chunk : List Char) :
    Except IoFailure (List Char) :=
  if totalBytesRead + chunk.length ≤ buffer.length then
    .ok (buffer.take totalBytesRead ++ chunk ++ buffer.drop (totalBytesRead + chunk.length))
  else .error .undefinedBehaviour

/-- The `while (restBytesRead > 0)` loop of `readAll`. A hard error of `recv`
is logged and the loop goes on. Returns the array, `totalBytesRead` and the
unused results. -/
def readAllLoop :
    List RecvResult → List Char → Nat → Int →
      Except IoFailure (List Char × Nat × List RecvResult)
  | [], buffer, totalBytesRead, restBytesRead =>
    if restBytesRead > 0 then .error .moreResults else .ok (buffer, totalBytesRead, [])
  | r :: more, buffer, totalBytesRead, restBytesRead =>
    if restBytesRead > 0 then
      match r with
      | .eintr => readAllLoop more buffer totalBytesRead restBytesRead
      | .eagain => .ok (buffer, totalBytesRead, more)
      | .error => readAllLoop more buffer totalBytesRead restBytesRead
      | .data chunk =>
        if restBytesRead < chunk.length then .error .invalidResult
        else if chunk.length = 0 then .ok (buffer, totalBytesRead, more)
        else
          match storeChunk buffer totalBytesRead chunk with
          | .error e => .error e
          | .ok buffer1 =>
            readAllLoop more buffer1 (totalBytesRead + chunk.length)
              (restBytesRead - chunk.length)
    else .ok (buffer, totalBytesRead, r :: more)

/-- The function `readAll(fd, buffer, bufferSize)` on an array `buffer`:
`restBytesRead` starts as `bufferSize - 1` (computed as `size_t`, stored in an
`int`), and after the loop `buffer[totalBytesRead] = 0` is written. Returns
the array and the unused results. -/
def readAll (results : List RecvResult) (buffer : List Char) (bufferSize : Nat) :
    Except IoFailure (List Char × List RecvResult) :=
  match readAllLoop results buffer 0 (toInt32 ((bufferSize + 2 ^ 64 - 1) % 2 ^ 64)) with
  | .error e => .error e
  | .ok (buffer1, totalBytesRead, rest) =>
    if totalBytesRead < buffer1.length then
      .ok (buffer1.set totalBytesRead (Char.ofNat 0), rest)
    else .error .undefinedBehaviour

/-- The `while (leftToWrite > 0)` loop of `sendAll`. Every call is
`send(fd, buffer, count, 0)`: it offers the array from its first byte, and the
bytes the socket accepts are appended to `sent`. `leftToWrite` is a `size_t`.
Returns the return value of `sendAll`, the bytes handed to the socket and the
unused results. -/
def sendAllLoop :
    List SendResult → List Char → Nat → Nat → List Char →
      Except IoFailure (Nat × List Char × List SendResult)
  | [], _, count, leftToWrite, sent =>
    if leftToWrite > 0 then .error .moreResults else .ok (count, sent, [])
  | r :: more, buffer, count, leftToWrite, sent =>
    if leftToWrite > 0 then
      match r with
      | .eintr => sendAllLoop more buffer count leftToWrite sent
      | .eagain => .ok (2 ^ 64 - 1, sent, more)
      | .error => .ok (2 ^ 64 - 1, sent, more)
      | .bytes written =>
        if count < written then .error .invalidResult
        else
          sendAllLoop more buffer count ((leftToWrite + 2 ^ 64 - written) % 2 ^ 64)
            (sent ++ buffer.take written)
    else .ok (count, sent, r :: more)

/-- The function `sendAll(fd, buffer, count)`. -/
def sendAll (results : List SendResult) (buffer : List Char) (count : Nat) :
    Except IoFailure (Nat × List Char × List SendResult) :=
  sendAllLoop results buffer count count []

end Helper

/-- The call `peekQueueConnections(&queue)` in state-passing form: the element
returned together with the queue as the call leaves it. The body of the
function has no assignment through its pointer argument. -/
def peekQueueConnectionsState (q : QueueConnectionsType) :
    Option (QueueConnectionElementType × QueueConnectionsType) :=
  match peekQueueConnections q with
  | none => none
  | some element => some (element, q)

/-! ## `createQueueConnections`

`memset(p, c, n)` writes `n` bytes. Its effect on an array of integers is
modelled for the layout of the Linux targets the server is written for: `int`
has 4 bytes and `time_t` 8, two's complement, little-endian; the heap element
`{fd, priorityTime}` has `fd` at byte 0 and `priorityTime` at byte 8 of its 16
bytes. The automatic variable `queueConnections` is not initialised: the bytes
it holds before the two `memset` calls are an input, `uninitialised`, whose
lists also fix the sizes of the two arrays. -/

/-- Value of a two's complement integer of `width` bytes after its `k` bytes at
the lowest addresses have been overwritten with the byte `byte`. -/
def overwriteLowBytes (width k byte : Nat) (v : Int) : Int :=
  let unsigned := (v % 2 ^ (8 * width)).toNat
  let written := unsigned / 2 ^ (8 * k) * 2 ^ (8 * k) + byte * ((2 ^ (8 * k) - 1) / 255)
  if written < 2 ^ (8 * width - 1) then (written : Int)
  else (written : Int) - 2 ^ (8 * width)

/-- `memset(table, byte, n)` on an array of `int`: the first `n` bytes are
overwritten, entry by entry; entries past them are left as they are. -/
def memsetInts : Nat → Nat → List Int → List Int
  | 0, _, table => table
  | _ + 1, _, [] => []
  | n + 1, byte, x :: rest =>
    overwriteLowBytes 4 (min (n + 1) 4) byte x :: memsetInts (n + 1 - 4) byte rest

/-- `memset(connections, byte, n)` on an array of heap elements of 16 bytes. -/
def memsetElements :
    Nat → Nat → List QueueConnectionElementType → List QueueConnectionElementType
  | 0, _, elements => elements
  | _ + 1, _, [] => []
  | n + 1, byte, e :: rest =>
    { fd := overwriteLowBytes 4 (min (n + 1) 4) byte e.fd,
      priorityTime := overwriteLowBytes 8 (min (n + 1 - 8) 8) byte e.priorityTime } ::
      memsetElements (n + 1 - 16) byte rest

/-- The function `createQueueConnections`:
`memset(connections, 0, MAX_CONNECTIONS)`, `currentSize = 0`,
`capacity = MAX_CONNECTIONS`, `memset(indexQueue, -1, MAX_CONNECTIONS)`. The
third argument of both `memset` calls is the number of elements, used as a
number of bytes. -/
def createQueueConnections (MAX_CONNECTIONS : Nat) (uninitialised : QueueConnectionsType) :
    Option QueueConnectionsType :=
  if MAX_CONNECTIONS ≤ 16 * uninitialised.connections.length ∧
      MAX_CONNECTIONS ≤ 4 * uninitialised.indexQueue.length then
    some
      { connections := memsetElements MAX_CONNECTIONS 0 uninitialised.connections
        currentSize := 0
        capacity := MAX_CONNECTIONS
        indexQueue := memsetInts MAX_CONNECTIONS 255 uninitialised.indexQueue }
  else none

/-- Memory of a queue with 8 heap slots and 8 table entries before it is
initialised: every slot holds `{5, 77}`, every table entry 7, the sizes 3
and 9. -/
def staleQueueMemory : QueueConnectionsType :=
  { connections := List.replicate 8 ⟨5, 77⟩, currentSize := 3, capacity := 9,
    indexQueue := List.replicate 8 7 }

/-! ## Auxiliary facts on lists -/

theorem cons_set_perm {α : Type} (x : α) :
    ∀ (xs : List α) (i : Nat) (y : α), xs[i]? = some y → (y :: xs.set i x).Perm (x :: xs) := by
  intro xs
  induction xs with
  | nil => intro i y h; simp at h
  | cons z zs ih =>
    intro i y h
    cases i with
    | zero =>
      simp at h
      subst h
      simpa using List.Perm.swap x z zs
    | succ j =>
      simp at h
      have h1 := ih j y h
      simp only [List.set_cons_succ]
      exact ((List.Perm.swap z y _).trans (h1.cons z)).trans (List.Perm.swap x z zs)

theorem set_swap_perm {α : Type} :
    ∀ (xs : List α) (a b : Nat) (x y : α), xs[a]? = some x → xs[b]? = some y →
      ((xs.set a y).set b x).Perm xs := by
  intro xs
  induction xs with
  | nil => intro a b x y h; simp at h
  | cons z zs ih =>
    intro a b x y ha hb
    cases a with
    | zero =>
      simp at ha
      subst ha
      cases b with
      | zero => simp at hb; subst hb; simp
      | succ j =>
        simp at hb
        simpa using cons_set_perm z zs j y hb
    | succ i =>
      simp at ha
      cases b with
      | zero =>
        simp at hb
        subst hb
        simpa using (cons_set_perm z zs i x ha)
      | succ j =>
        simp at hb
        simpa using ih i j x y ha hb


/-! ## Slot arithmetic and array updates -/

theorem parentHeap_lt {i : Nat} (h : i ≠ 0) : parentHeap i < i := by
  unfold parentHeap; omega

theorem parentHeap_eq_iff {k i : Nat} (h : 0 < k) :
    parentHeap k = i ↔ k = leftChildHeap i ∨ k = rightChildHeap i := by
  unfold parentHeap leftChildHeap rightChildHeap; omega

theorem keyAt_of_getElem? {cs : List QueueConnectionElementType} {i : Nat}
    {e : QueueConnectionElementType} (h : cs[i]? = some e) : keyAt cs i = e.priorityTime := by
  simp [keyAt, h]

theorem keyAt_congr {cs cs1 : List QueueConnectionElementType} {i j : Nat}
    (h : cs1[i]? = cs[j]?) : keyAt cs1 i = keyAt cs j := by
  simp [keyAt, h]

theorem swap_spec (cs : List QueueConnectionElementType) (a b : Nat)
    (ha : a < cs.length) (hb : b < cs.length) :
    ∃ cs1, swapConnectionElementHeap cs a b = some cs1 ∧ cs1.length = cs.length ∧
      cs1[a]? = cs[b]? ∧ cs1[b]? = cs[a]? ∧
      (∀ k, k ≠ a → k ≠ b → cs1[k]? = cs[k]?) ∧
      (∀ n, a < n → b < n → (cs1.take n).Perm (cs.take n)) := by
  refine ⟨(cs.set a cs[b]).set b cs[a], ?_, by simp, ?_, ?_, ?_, ?_⟩
  · simp [swapConnectionElementHeap, List.getElem?_eq_getElem ha, List.getElem?_eq_getElem hb]
  · by_cases hab : a = b
    · subst hab; simp [List.getElem?_set, ha]
    · simp [List.getElem?_set, ha, hb, hab, Ne.symm hab]
  · simp [List.getElem?_set, ha, hb]
  · intro k hka hkb
    simp [List.getElem?_set, Ne.symm hka, Ne.symm hkb]
  · intro n han hbn
    rw [List.set_take, List.set_take]
    apply set_swap_perm
    · rw [List.getElem?_take_of_lt han]; exact List.getElem?_eq_getElem ha
    · rw [List.getElem?_take_of_lt hbn]; exact List.getElem?_eq_getElem hb

/-! ## The sift-up loop -/

theorem shiftUpLoop_spec (n : Nat) (t : Int) :
    ∀ (fuel : Nat) (cs : List QueueConnectionElementType) (i : Nat),
      i ≤ fuel → i < n → n ≤ cs.length → keyAt cs i = t →
      ∃ cs1 i1, shiftUpLoop fuel cs t i = some (cs1, i1) ∧ cs1.length = cs.length ∧
        i1 ≤ i ∧ cs1[i1]? = cs[i]? ∧ (cs1.take n).Perm (cs.take n) ∧
        (∀ k, n ≤ k → cs1[k]? = cs[k]?) ∧
        (HeapExceptUp cs n i → HeapOn cs1 n) := by
  intro fuel
  induction fuel with
  | zero =>
    intro cs i hi hin hn ht
    have hi0 : i = 0 := by omega
    subst hi0
    refine ⟨cs, 0, by simp [shiftUpLoop], rfl, le_refl _, rfl, List.Perm.refl _, fun _ _ => rfl, ?_⟩
    intro h k hk hkn
    exact h.1 k hk hkn (by omega)
  | succ f ih =>
    intro cs i hi hin hn ht
    by_cases hi0 : i = 0
    · subst hi0
      refine ⟨cs, 0, by simp [shiftUpLoop], rfl, le_refl _, rfl, List.Perm.refl _,
        fun _ _ => rfl, ?_⟩
      intro h k hk hkn
      exact h.1 k hk hkn (by omega)
    · have hp : parentHeap i < i := parentHeap_lt hi0
      have hpl : parentHeap i < cs.length := by omega
      have hpe : cs[parentHeap i]? = some cs[parentHeap i] := List.getElem?_eq_getElem hpl
      have hkp : keyAt cs (parentHeap i) = cs[parentHeap i].priorityTime :=
        keyAt_of_getElem? hpe
      by_cases hlt : difftime t cs[parentHeap i].priorityTime < 0
      · obtain ⟨cs1, hs, hl1, ha, hb, hrest, hperm⟩ :=
          swap_spec cs i (parentHeap i) (by omega) hpl
        have hk1 : keyAt cs1 (parentHeap i) = t := by
          rw [keyAt_congr hb]; exact ht
        obtain ⟨cs2, i2, hrun, hl2, hi2, hat, hperm2, hout, hheap⟩ :=
          ih cs1 (parentHeap i) (by omega) (by omega) (by omega) hk1
        refine ⟨cs2, i2, ?_, by omega, by omega, ?_, ?_, ?_, ?_⟩
        · rw [shiftUpLoop]
          simp [hi0, hpe, hlt, hs, hrun]
        · rw [hat, hb]
        · exact hperm2.trans (hperm n hin (by omega))
        · intro k hk
          rw [hout k hk, hrest k (by omega) (by omega)]
        · intro hex
          apply hheap
          have hlt1 : t < keyAt cs (parentHeap i) := by
            rw [hkp]; unfold difftime at hlt; omega
          have hki : keyAt cs1 i = keyAt cs (parentHeap i) := keyAt_congr ha
          have hkr : ∀ k, k ≠ i → k ≠ parentHeap i → keyAt cs1 k = keyAt cs k :=
            fun k h1 h2 => keyAt_congr (hrest k h1 h2)
          constructor
          · intro k hk hkn hkne
            by_cases hki1 : k = i
            · subst hki1
              rw [hk1, hki]; omega
            · by_cases hpk : parentHeap k = parentHeap i
              · rw [hpk, hk1, hkr k hki1 hkne]
                have := hex.1 k hk hkn hki1
                rw [hpk] at this
                omega
              · by_cases hpki : parentHeap k = i
                · rw [hpki, hki, hkr k hki1 hkne]
                  exact hex.2 k hk hkn hpki (by omega)
                · rw [hkr (parentHeap k) hpki hpk, hkr k hki1 hkne]
                  exact hex.1 k hk hkn hki1
          · intro k hk hkn hpk hp0
            have hpp : parentHeap (parentHeap i) < parentHeap i := parentHeap_lt (by omega)
            have hgp : keyAt cs1 (parentHeap (parentHeap i)) =
                keyAt cs (parentHeap (parentHeap i)) := hkr _ (by omega) (by omega)
            have hgpp : keyAt cs (parentHeap (parentHeap i)) ≤ keyAt cs (parentHeap i) :=
              hex.1 (parentHeap i) hp0 (by omega) (by omega)
            rw [hgp]
            by_cases hki1 : k = i
            · subst hki1
              rw [hki]; exact hgpp
            · have hkp1 : k ≠ parentHeap i := by
                have := parentHeap_lt (i := k) (by omega)
                omega
              rw [hkr k hki1 hkp1]
              have := hex.1 k hk hkn hki1
              rw [hpk] at this
              omega
      · refine ⟨cs, i, ?_, rfl, le_refl _, rfl, List.Perm.refl _, fun _ _ => rfl, ?_⟩
        · rw [shiftUpLoop]
          simp [hi0, hpe, hlt]
        · intro hex k hk hkn
          by_cases hki : k = i
          · subst hki
            rw [hkp, ht]; unfold difftime at hlt; omega
          · exact hex.1 k hk hkn hki


/-! ## Sift-down -/

theorem writeIndexQueue_spec (q : QueueConnectionsType) (fd v : Int)
    (h : 0 ≤ fd ∧ fd < q.indexQueue.length) :
    ∃ q1, writeIndexQueue q fd v = some q1 ∧ q1.connections = q.connections ∧
      q1.currentSize = q.currentSize ∧ q1.capacity = q.capacity ∧
      q1.indexQueue = q.indexQueue.set fd.toNat v := by
  have h2 : fd.toNat < q.indexQueue.length := by omega
  refine ⟨{ q with indexQueue := q.indexQueue.set fd.toNat v }, ?_, rfl, rfl, rfl, rfl⟩
  simp [writeIndexQueue, h.1, h2]

theorem mem_liveElements_of_getElem? {q : QueueConnectionsType} {i : Nat}
    {e : QueueConnectionElementType} (hi : i < q.currentSize)
    (h : q.connections[i]? = some e) : e ∈ liveElements q := by
  unfold liveElements
  apply List.getElem?_mem (n := i)
  rw [List.getElem?_take_of_lt hi]; exact h

theorem heapifySwap_spec (q : QueueConnectionsType) (i s : Nat)
    (hn : q.currentSize ≤ q.connections.length) (hfd : FdsInRange q)
    (hi : i < q.currentSize) (hs : s < q.currentSize) :
    ∃ q3, heapifySwap q i s = some q3 ∧
      q3.currentSize = q.currentSize ∧ q3.capacity = q.capacity ∧
      q3.connections.length = q.connections.length ∧
      q3.indexQueue.length = q.indexQueue.length ∧
      q3.connections[i]? = q.connections[s]? ∧ q3.connections[s]? = q.connections[i]? ∧
      (∀ k, k ≠ i → k ≠ s → q3.connections[k]? = q.connections[k]?) ∧
      (liveElements q3).Perm (liveElements q) := by
  obtain ⟨cs1, hsw, hl1, ha, hb, hrest, hperm⟩ :=
    swap_spec q.connections i s (by omega) (by omega)
  have hsl : s < q.connections.length := by omega
  have hil : i < q.connections.length := by omega
  have hes : q.connections[s]? = some q.connections[s] := List.getElem?_eq_getElem hsl
  have hei : q.connections[i]? = some q.connections[i] := List.getElem?_eq_getElem hil
  have hfs := hfd _ (mem_liveElements_of_getElem? hs hes)
  have hfi := hfd _ (mem_liveElements_of_getElem? hi hei)
  obtain ⟨q2, hw2, hc2, hz2, hcap2, hiq2⟩ :=
    writeIndexQueue_spec { q with connections := cs1 } q.connections[s].fd i hfs
  have hfi2 : 0 ≤ q.connections[i].fd ∧ q.connections[i].fd < q2.indexQueue.length := by
    rw [hiq2]; simpa using hfi
  obtain ⟨q3, hw3, hc3, hz3, hcap3, hiq3⟩ :=
    writeIndexQueue_spec q2 q.connections[i].fd s hfi2
  have hc : q3.connections = cs1 := by rw [hc3, hc2]
  have hz : q3.currentSize = q.currentSize := by rw [hz3, hz2]
  refine ⟨q3, ?_, hz, by rw [hcap3, hcap2], by rw [hc, hl1], ?_, by rw [hc, ha],
    by rw [hc, hb], ?_, ?_⟩
  · have h1 : cs1[i]? = some q.connections[s] := by rw [ha, hes]
    have h2 : q2.connections[s]? = some q.connections[i] := by rw [hc2]; simp only; rw [hb, hei]
    simp only [heapifySwap, hsw, h1, hw2, h2, hw3]
  · rw [hiq3, hiq2]; simp
  · intro k h1 h2; rw [hc]; exact hrest k h1 h2
  · unfold liveElements; rw [hc, hz]; exact hperm _ hi hs

theorem heapifySmallest_spec (q : QueueConnectionsType) (i : Nat)
    (hn : q.currentSize ≤ q.connections.length) :
    ∃ s, heapifySmallest q i = some s ∧
      (s = i ∨ ((s = leftChildHeap i ∨ s = rightChildHeap i) ∧ s < q.currentSize ∧
        keyAt q.connections s < keyAt q.connections i)) ∧
      (leftChildHeap i < q.currentSize →
        keyAt q.connections s ≤ keyAt q.connections (leftChildHeap i)) ∧
      (rightChildHeap i < q.currentSize →
        keyAt q.connections s ≤ keyAt q.connections (rightChildHeap i)) := by
  have hget : ∀ k, k < q.connections.length → ∃ e, q.connections[k]? = some e ∧
      keyAt q.connections k = e.priorityTime := by
    intro k hk
    exact ⟨q.connections[k], List.getElem?_eq_getElem hk,
      keyAt_of_getElem? (List.getElem?_eq_getElem hk)⟩
  have hli : i < leftChildHeap i := by unfold leftChildHeap; omega
  have hlr : leftChildHeap i < rightChildHeap i := by unfold leftChildHeap rightChildHeap; omega
  by_cases hl : leftChildHeap i < q.currentSize
  · obtain ⟨xl, e1, k1⟩ := hget (leftChildHeap i) (by omega)
    obtain ⟨xi, e2, k2⟩ := hget i (by omega)
    by_cases hr : rightChildHeap i < q.currentSize
    · obtain ⟨xr, e3, k3⟩ := hget (rightChildHeap i) (by omega)
      by_cases c1 : difftime xl.priorityTime xi.priorityTime < 0
      · by_cases c2 : difftime xr.priorityTime xl.priorityTime < 0
        · refine ⟨rightChildHeap i, ?_, ?_, ?_, ?_⟩
          · simp only [heapifySmallest, hl, hr, if_true, e1, e2, e3, c1, c2]
          · unfold difftime at c1 c2; right; exact ⟨Or.inr rfl, hr, by omega⟩
          · intro _; unfold difftime at c2; omega
          · intro _; exact le_refl _
        · refine ⟨leftChildHeap i, ?_, ?_, ?_, ?_⟩
          · simp only [heapifySmallest, hl, hr, if_true, e1, e2, e3, c1, c2, if_false]
          · unfold difftime at c1; right; exact ⟨Or.inl rfl, hl, by omega⟩
          · intro _; exact le_refl _
          · intro _; unfold difftime at c2; omega
      · by_cases c2 : difftime xr.priorityTime xi.priorityTime < 0
        · refine ⟨rightChildHeap i, ?_, ?_, ?_, ?_⟩
          · simp only [heapifySmallest, hl, hr, if_true, e1, e2, e3, c1, c2, if_false]
          · unfold difftime at c2; right; exact ⟨Or.inr rfl, hr, by omega⟩
          · intro _; unfold difftime at c1 c2; omega
          · intro _; exact le_refl _
        · refine ⟨i, ?_, Or.inl rfl, ?_, ?_⟩
          · simp only [heapifySmallest, hl, hr, if_true, e1, e2, e3, c1, c2, if_false]
          · intro _; unfold difftime at c1; omega
          · intro _; unfold difftime at c2; omega
    · by_cases c1 : difftime xl.priorityTime xi.priorityTime < 0
      · refine ⟨leftChildHeap i, ?_, ?_, ?_, ?_⟩
        · simp only [heapifySmallest, hl, hr, if_true, e1, e2, c1, if_false]
        · unfold difftime at c1; right; exact ⟨Or.inl rfl, hl, by omega⟩
        · intro _; exact le_refl _
        · intro h; exact absurd h hr
      · refine ⟨i, ?_, Or.inl rfl, ?_, ?_⟩
        · simp only [heapifySmallest, hl, hr, if_true, e1, e2, c1, if_false]
        · intro _; unfold difftime at c1; omega
        · intro h; exact absurd h hr
  · have hr : ¬ rightChildHeap i < q.currentSize := by omega
    refine ⟨i, ?_, Or.inl rfl, ?_, ?_⟩
    · simp only [heapifySmallest, hl, hr, if_false]
    · intro h; exact absurd h hl
    · intro h; exact absurd h hr

theorem heapifyAux_spec :
    ∀ (fuel : Nat) (q : QueueConnectionsType) (i : Nat),
      q.currentSize ≤ q.connections.length → FdsInRange q → q.currentSize ≤ fuel + i + 1 →
      ∃ q1, heapifyAux fuel q i = some q1 ∧
        q1.currentSize = q.currentSize ∧ q1.capacity = q.capacity ∧
        q1.connections.length = q.connections.length ∧
        q1.indexQueue.length = q.indexQueue.length ∧
        (liveElements q1).Perm (liveElements q) ∧
        (∀ k, q.currentSize ≤ k → q1.connections[k]? = q.connections[k]?) ∧
        (HeapExceptDown q.connections q.currentSize i → HeapProperty q1) := by
  intro fuel
  induction fuel with
  | zero =>
    intro q i hn hfd hfuel
    obtain ⟨s, hsm, hcase, hleft, hright⟩ := heapifySmallest_spec q i hn
    have hsi : s = i := by
      rcases hcase with h | ⟨h, hlt, _⟩
      · exact h
      · unfold leftChildHeap rightChildHeap at h; omega
    subst hsi
    refine ⟨q, ?_, rfl, rfl, rfl, rfl, List.Perm.refl _, fun _ _ => rfl, ?_⟩
    · rw [heapifyAux]; simp [hsm]
    · intro hex k hk hkn
      by_cases hpk : parentHeap k = s
      · rcases (parentHeap_eq_iff hk).mp hpk with h | h
        · rw [hpk, h]; exact hleft (by omega)
        · rw [hpk, h]; exact hright (by omega)
      · exact hex.1 k hk hkn hpk
  | succ f ih =>
    intro q i hn hfd hfuel
    obtain ⟨s, hsm, hcase, hleft, hright⟩ := heapifySmallest_spec q i hn
    by_cases hsi : s = i
    · subst hsi
      refine ⟨q, ?_, rfl, rfl, rfl, rfl, List.Perm.refl _, fun _ _ => rfl, ?_⟩
      · rw [heapifyAux]; simp [hsm]
      · intro hex k hk hkn
        by_cases hpk : parentHeap k = s
        · rcases (parentHeap_eq_iff hk).mp hpk with h | h
          · rw [hpk, h]; exact hleft (by omega)
          · rw [hpk, h]; exact hright (by omega)
        · exact hex.1 k hk hkn hpk
    · rcases hcase with h | ⟨hchild, hsn, hkey⟩
      · exact absurd h hsi
      · have his : i < s := by unfold leftChildHeap rightChildHeap at hchild; omega
        have hs0 : 0 < s := by omega
        have hps : parentHeap s = i := (parentHeap_eq_iff hs0).mpr hchild
        obtain ⟨q3, hsw, hz3, hcap3, hl3, hiq3, ha, hb, hrest, hperm⟩ :=
          heapifySwap_spec q i s hn hfd (by omega) hsn
        have hfd3 : FdsInRange q3 := by
          intro e he
          rw [hiq3]
          exact hfd e (hperm.mem_iff.mp he)
        obtain ⟨q4, hrun, hz4, hcap4, hl4, hiq4, hperm4, hout4, hheap4⟩ :=
          ih q3 s (by omega) hfd3 (by omega)
        refine ⟨q4, ?_, by omega, by omega, by omega, by omega, hperm4.trans hperm, ?_, ?_⟩
        · rw [heapifyAux]; simp [hsm, hsi, hsw, hrun]
        · intro k hk
          rw [hout4 k (by omega), hrest k (by omega) (by omega)]
        · intro hex
          apply hheap4
          rw [hz3]
          have hki : keyAt q3.connections i = keyAt q.connections s := keyAt_congr ha
          have hks : keyAt q3.connections s = keyAt q.connections i := keyAt_congr hb
          have hkr : ∀ k, k ≠ i → k ≠ s →
              keyAt q3.connections k = keyAt q.connections k :=
            fun k h1 h2 => keyAt_congr (hrest k h1 h2)
          constructor
          · intro k hk hkn hpk
            by_cases hki1 : k = i
            · subst hki1
              have hpi := parentHeap_lt (i := k) (by omega)
              rw [hki, hkr (parentHeap k) (by omega) (by omega)]
              exact hex.2 s hs0 hsn hps hk
            · by_cases hks1 : k = s
              · subst hks1
                rw [hps, hki, hks]; omega
              · rw [hkr k hki1 hks1]
                by_cases hpki : parentHeap k = i
                · rw [hpki, hki]
                  rcases (parentHeap_eq_iff hk).mp hpki with h | h
                  · rw [h]; exact hleft (by omega)
                  · rw [h]; exact hright (by omega)
                · rw [hkr (parentHeap k) hpki hpk]
                  exact hex.1 k hk hkn hpki
          · intro k hk hkn hpk _
            have hks1 : s < k := by
              have := parentHeap_lt (i := k) (by omega); omega
            rw [hps, hki, hkr k (by omega) (by omega)]
            have := hex.1 k hk hkn (by omega)
            rw [hpk] at this
            exact this

theorem heapify_spec (q : QueueConnectionsType) (i : Nat)
    (hn : q.currentSize ≤ q.connections.length) (hfd : FdsInRange q) :
    ∃ q1, heapify q i = some q1 ∧
      q1.currentSize = q.currentSize ∧ q1.capacity = q.capacity ∧
      q1.connections.length = q.connections.length ∧
      q1.indexQueue.length = q.indexQueue.length ∧
      (liveElements q1).Perm (liveElements q) ∧
      (∀ k, q.currentSize ≤ k → q1.connections[k]? = q.connections[k]?) ∧
      (HeapExceptDown q.connections q.currentSize i → HeapProperty q1) :=
  heapifyAux_spec q.currentSize q i hn hfd (by omega)



/-! ## The operations -/

theorem heapOn_root_le {cs : List QueueConnectionElementType} {n : Nat} (h : HeapOn cs n) :
    ∀ k, k < n → keyAt cs 0 ≤ keyAt cs k := by
  intro k
  induction k using Nat.strong_induction_on with
  | _ k ih =>
    intro hk
    by_cases hk0 : k = 0
    · subst hk0; exact le_refl _
    · have hp := parentHeap_lt hk0
      exact le_trans (ih (parentHeap k) hp (by omega)) (h k (by omega) hk)

theorem take_set_ge {α : Type} (l : List α) (n m : Nat) (e : α) (h : n ≤ m) :
    (l.set m e).take n = l.take n := by
  rw [List.set_take, List.set_eq_of_length_le]
  rw [List.length_take]; omega

theorem take_succ_set {α : Type} (l : List α) (n : Nat) (e : α) (h : n < l.length) :
    (l.set n e).take (n + 1) = l.take n ++ [e] := by
  rw [List.take_succ, take_set_ge _ _ _ _ (le_refl _)]
  simp [List.getElem?_set, h]

theorem enqueueConnection_spec (q : QueueConnectionsType) (e : QueueConnectionElementType)
    (hsize : q.currentSize < q.capacity) (hcap : q.capacity ≤ q.connections.length)
    (hfd : 0 ≤ e.fd ∧ e.fd < q.indexQueue.length) :
    ∃ q1 i1, enqueueConnection q e = some q1 ∧
      q1.currentSize = q.currentSize + 1 ∧ q1.capacity = q.capacity ∧
      q1.connections.length = q.connections.length ∧
      q1.indexQueue.length = q.indexQueue.length ∧
      (liveElements q1).Perm (e :: liveElements q) ∧
      (∀ k, q.currentSize + 1 ≤ k → q1.connections[k]? = q.connections[k]?) ∧
      (HeapProperty q → HeapProperty q1) ∧
      i1 < q1.currentSize ∧ readIndexQueue q1 e.fd = some (i1 : Int) ∧
      q1.connections[i1]? = some e := by
  have hlen : q.currentSize < q.connections.length := by omega
  have hset : (q.connections.set q.currentSize e)[q.currentSize]? = some e := by
    simp [List.getElem?_set, hlen]
  obtain ⟨cs1, i1, hrun, hl1, hi1, hat, hperm, hout, hheap⟩ :=
    shiftUpLoop_spec (q.currentSize + 1) e.priorityTime q.currentSize
      (q.connections.set q.currentSize e) q.currentSize (le_refl _) (by omega)
      (by simpa using hlen) (keyAt_of_getElem? hset)
  obtain ⟨q1, hw, hc1, hz1, hcap1, hiq1⟩ :=
    writeIndexQueue_spec
      { q with connections := cs1, currentSize := q.currentSize + 1 } e.fd i1 hfd
  have hfdn : e.fd.toNat < q.indexQueue.length := by omega
  refine ⟨q1, i1, ?_, by rw [hz1], by rw [hcap1], by rw [hc1]; simpa using hl1,
    by rw [hiq1]; simp, ?_, ?_, ?_, by rw [hz1]; simp; omega, ?_, by rw [hc1]; simp [hat, hset]⟩
  · simp only [enqueueConnection, Nat.ne_of_lt hsize, if_false, hlen, if_true,
      Nat.add_sub_cancel, hrun, hw]
  · unfold liveElements
    rw [hc1, hz1]
    refine hperm.trans ?_
    rw [take_succ_set _ _ _ hlen]
    exact List.perm_append_singleton _ _
  · intro k hk
    rw [hc1]; simp only
    rw [hout k hk, List.getElem?_set_ne (by omega)]
  · intro hh
    unfold HeapProperty
    rw [hc1, hz1]
    apply hheap
    have hkeep : ∀ k, k ≠ q.currentSize →
        keyAt (q.connections.set q.currentSize e) k = keyAt q.connections k :=
      fun k hk => keyAt_congr (List.getElem?_set_ne (Ne.symm hk))
    constructor
    · intro k hk hkn hkne
      have hp := parentHeap_lt (i := k) (by omega)
      rw [hkeep k hkne, hkeep _ (by omega)]
      exact hh k hk (by omega)
    · intro k hk hkn hpk _
      have hp := parentHeap_lt (i := k) (by omega)
      omega
  · unfold readIndexQueue
    rw [hiq1]
    simp [hfd.1, List.getElem?_set, hfdn]



theorem take_root_last_perm {α : Type} (l : List α) (m : Nat) (root last : α)
    (h0 : l[0]? = some root) (hm : l[m]? = some last) :
    (l.take m ++ [last]).Perm (root :: (l.take m).set 0 last) := by
  cases l with
  | nil => simp at h0
  | cons r rest =>
    simp at h0
    subst h0
    cases m with
    | zero => simp at hm; subst hm; simp
    | succ j =>
      simp only [List.take_succ_cons, List.set_cons_zero, List.cons_append]
      exact ((List.perm_append_singleton _ _).cons r)

theorem dequeueConnection_spec (q : QueueConnectionsType)
    (hpos : 0 < q.currentSize) (hn : q.currentSize ≤ q.connections.length)
    (hfd : FdsInRange q) :
    ∃ q1 root, q.connections[0]? = some root ∧ dequeueConnection q = some q1 ∧
      q1.currentSize = q.currentSize - 1 ∧ q1.capacity = q.capacity ∧
      q1.connections.length = q.connections.length ∧
      q1.indexQueue.length = q.indexQueue.length ∧
      (liveElements q).Perm (root :: liveElements q1) ∧
      (HeapProperty q → HeapProperty q1) := by
  obtain ⟨m, hm⟩ : ∃ m, q.currentSize = m + 1 := ⟨q.currentSize - 1, by omega⟩
  have h0 : 0 < q.connections.length := by omega
  have hml : m < q.connections.length := by omega
  obtain ⟨root, e0⟩ : ∃ root, q.connections[0]? = some root :=
    ⟨_, List.getElem?_eq_getElem h0⟩
  obtain ⟨last, em⟩ : ∃ last, q.connections[m]? = some last :=
    ⟨_, List.getElem?_eq_getElem hml⟩
  have hlive : liveElements q = q.connections.take m ++ [last] := by
    unfold liveElements; rw [hm, List.take_succ, em]; rfl
  have hf0 := hfd _ (mem_liveElements_of_getElem? (i := 0) (by omega) e0)
  have hfm := hfd _ (mem_liveElements_of_getElem? (i := m) (by omega) em)
  obtain ⟨q2, hw2, hc2, hz2, hcap2, hiq2⟩ :=
    writeIndexQueue_spec
      { q with connections := (q.connections.set 0 last).set m ⟨0, 0⟩,
               currentSize := m } root.fd (-1) hf0
  have hfm2 : 0 ≤ last.fd ∧ last.fd < q2.indexQueue.length := by
    rw [hiq2]; simpa using hfm
  obtain ⟨q3, hw3, hc3, hz3, hcap3, hiq3⟩ :=
    writeIndexQueue_spec q2 last.fd 0 hfm2
  have hc : q3.connections = (q.connections.set 0 last).set m ⟨0, 0⟩ := by
    rw [hc3, hc2]
  have hz : q3.currentSize = m := by rw [hz3, hz2]
  have hl3 : q3.connections.length = q.connections.length := by rw [hc]; simp
  have hi3 : q3.indexQueue.length = q.indexQueue.length := by rw [hiq3, hiq2]; simp
  have hlive3 : liveElements q3 = (q.connections.take m).set 0 last := by
    unfold liveElements
    rw [hc, hz, take_set_ge _ _ _ _ (le_refl _), List.set_take]
  have hperm3 : (liveElements q).Perm (root :: liveElements q3) := by
    rw [hlive, hlive3]
    exact take_root_last_perm _ _ _ _ e0 em
  have hfd3 : FdsInRange q3 := by
    intro e he
    rw [hi3]
    exact hfd e (hperm3.mem_iff.mpr (List.mem_cons_of_mem _ he))
  obtain ⟨q4, hrun, hz4, hcap4, hl4, hiq4, hperm4, _, hheap4⟩ :=
    heapify_spec q3 0 (by omega) hfd3
  refine ⟨q4, root, e0, ?_, by omega, by rw [hcap4, hcap3, hcap2],
    by omega, by omega, hperm3.trans (hperm4.symm.cons _), ?_⟩
  · have hne : q.currentSize ≠ 0 := by omega
    have hsub : q.currentSize - 1 = m := by omega
    simp only [dequeueConnection, hne, if_false, hsub, e0, em, hw2, hw3, hrun]
  · intro hh
    apply hheap4
    rw [hz, hc]
    refine ⟨?_, fun k _ _ _ h => absurd h (Nat.lt_irrefl 0)⟩
    intro k hk hkm hpk
    have hp := parentHeap_lt (i := k) (by omega)
    have hkeep : ∀ j, j ≠ 0 → j ≠ m →
        keyAt ((q.connections.set 0 last).set m ⟨0, 0⟩) j = keyAt q.connections j := by
      intro j h1 h2
      apply keyAt_congr
      rw [List.getElem?_set_ne (Ne.symm h2), List.getElem?_set_ne (Ne.symm h1)]
    rw [hkeep k (by omega) (by omega), hkeep _ hpk (by omega)]
    exact hh k hk (by omega)

theorem updateQueueConnection_spec (q : QueueConnectionsType) (fd now : Int) (i : Nat)
    (old : QueueConnectionElementType)
    (hn : q.currentSize ≤ q.connections.length) (hfd : FdsInRange q)
    (hidx : readIndexQueue q fd = some (i : Int)) (hi : i < q.currentSize)
    (hold : q.connections[i]? = some old) (hofd : old.fd = fd) :
    ∃ q1, updateQueueConnection q fd now = some q1 ∧
      q1.currentSize = q.currentSize ∧ q1.capacity = q.capacity ∧
      q1.connections.length = q.connections.length ∧
      q1.indexQueue.length = q.indexQueue.length ∧
      (liveElements q1).Perm ((liveElements q).set i ⟨fd, now⟩) ∧
      (HeapProperty q → HeapProperty q1) := by
  have hil : i < q.connections.length := by omega
  have hfdr : 0 ≤ fd ∧ fd < q.indexQueue.length := by
    rw [← hofd]; exact hfd _ (mem_liveElements_of_getElem? hi hold)
  have hnew : ({ old with priorityTime := now } : QueueConnectionElementType) = ⟨fd, now⟩ := by
    rw [← hofd]
  have hset : (q.connections.set i ⟨fd, now⟩)[i]? = some ⟨fd, now⟩ := by
    simp [List.getElem?_set, hil]
  have hkeep : ∀ k, k ≠ i →
      keyAt (q.connections.set i ⟨fd, now⟩) k = keyAt q.connections k :=
    fun k hk => keyAt_congr (List.getElem?_set_ne (Ne.symm hk))
  have hki : keyAt (q.connections.set i ⟨fd, now⟩) i = now := keyAt_of_getElem? hset
  have hko : keyAt q.connections i = old.priorityTime := keyAt_of_getElem? hold
  have hlive : (q.connections.set i ⟨fd, now⟩).take q.currentSize =
      (liveElements q).set i ⟨fd, now⟩ := by
    unfold liveElements; rw [List.set_take]
  by_cases hlt : difftime now old.priorityTime < 0
  · obtain ⟨cs1, i1, hrun, hl1, hi1, hat, hperm, hout, hheap⟩ :=
      shiftUpLoop_spec q.currentSize now i (q.connections.set i ⟨fd, now⟩) i (le_refl _) hi
        (by simpa using hn) hki
    obtain ⟨q1, hw, hc1, hz1, hcap1, hiq1⟩ :=
      writeIndexQueue_spec { q with connections := cs1 } fd i1 hfdr
    refine ⟨q1, ?_, hz1, hcap1, by rw [hc1]; simpa using hl1, by rw [hiq1]; simp, ?_, ?_⟩
    · simp only [updateQueueConnection, hidx, Int.toNat_ofNat, hold, hnew, hlt, if_true,
        hrun, hw, Int.ofNat_nonneg, Int.natCast_nonneg]
    · unfold liveElements at *
      rw [hc1, hz1]
      exact hlive ▸ hperm
    · intro hh
      unfold HeapProperty
      rw [hc1, hz1]
      apply hheap
      unfold difftime at hlt
      constructor
      · intro k hk hkn hkne
        rw [hkeep k hkne]
        by_cases hpk : parentHeap k = i
        · rw [hpk, hki]
          have := hh k hk hkn
          rw [hpk, hko] at this
          omega
        · rw [hkeep _ hpk]; exact hh k hk hkn
      · intro k hk hkn hpk h0
        have hp := parentHeap_lt (i := k) (by omega)
        have hpi := parentHeap_lt (i := i) (by omega)
        rw [hkeep k (by omega), hkeep _ (by omega)]
        have h1 := hh k hk hkn
        have h2 := hh i h0 hi
        rw [hpk] at h1
        omega
  · have hfd2 : FdsInRange { q with connections := q.connections.set i ⟨fd, now⟩ } := by
      intro e he
      unfold liveElements at he
      simp only at he
      rw [hlive] at he
      rcases List.mem_or_eq_of_mem_set he with h | h
      · exact hfd e h
      · rw [h]; exact hfdr
    obtain ⟨q1, hrun, hz1, hcap1, hl1, hiq1, hperm, _, hheap⟩ :=
      heapify_spec { q with connections := q.connections.set i ⟨fd, now⟩ } i
        (by simpa using hn) hfd2
    refine ⟨q1, ?_, hz1, hcap1, by simpa using hl1, hiq1, ?_, ?_⟩
    · simp only [updateQueueConnection, hidx, Int.toNat_ofNat, hold, hnew, hlt, if_false,
        hrun, Int.ofNat_nonneg, Int.natCast_nonneg, if_true]
    · refine hperm.trans ?_
      unfold liveElements
      simp only
      rw [hlive]
      rfl
    · intro hh
      apply hheap
      simp only
      unfold difftime at hlt
      constructor
      · intro k hk hkn hpk
        rw [hkeep _ hpk]
        by_cases hki1 : k = i
        · subst hki1
          rw [hki]
          have := hh k hk hkn
          rw [hko] at this
          omega
        · rw [hkeep k hki1]; exact hh k hk hkn
      · intro k hk hkn hpk h0
        have hp := parentHeap_lt (i := k) (by omega)
        have hpi := parentHeap_lt (i := i) (by omega)
        rw [hkeep k (by omega), hkeep _ (by omega)]
        have h1 := hh k hk hkn
        have h2 := hh i h0 hi
        rw [hpk] at h1
        omega



/-! ## Consequences for sequences of calls -/

theorem mem_liveElements_iff {q : QueueConnectionsType} {e : QueueConnectionElementType} :
    e ∈ liveElements q ↔ ∃ i, i < q.currentSize ∧ q.connections[i]? = some e := by
  unfold liveElements
  rw [List.mem_iff_getElem?]
  constructor
  · rintro ⟨i, hi⟩
    rw [List.getElem?_take] at hi
    by_cases h : i < q.currentSize
    · rw [if_pos h] at hi; exact ⟨i, h, hi⟩
    · rw [if_neg h] at hi; exact absurd hi (by simp)
  · rintro ⟨i, hi, he⟩
    exact ⟨i, by rw [List.getElem?_take_of_lt hi]; exact he⟩

theorem root_le_live {q : QueueConnectionsType} (hh : HeapProperty q)
    {r : QueueConnectionElementType} (hr : q.connections[0]? = some r) :
    ∀ e ∈ liveElements q, r.priorityTime ≤ e.priorityTime := by
  intro e he
  obtain ⟨i, hi, hie⟩ := mem_liveElements_iff.mp he
  have := heapOn_root_le hh i hi
  rwa [keyAt_of_getElem? hr, keyAt_of_getElem? hie] at this

theorem fdsInRange_of_slotConsistent {q : QueueConnectionsType} (h : SlotConsistent q) :
    FdsInRange q := by
  intro e he
  obtain ⟨i, hi, hie⟩ := mem_liveElements_iff.mp he
  obtain ⟨e1, h1, h2⟩ := h i hi
  rw [hie] at h1
  cases h1
  unfold readIndexQueue at h2
  by_cases h0 : 0 ≤ e.fd
  · rw [if_pos h0] at h2
    have : e.fd.toNat < q.indexQueue.length := by
      by_contra hc
      rw [List.getElem?_eq_none (by omega)] at h2
      exact absurd h2 (by simp)
    exact ⟨h0, by omega⟩
  · rw [if_neg h0] at h2; exact absurd h2 (by simp)

theorem size_le_of_slotConsistent {q : QueueConnectionsType} (h : SlotConsistent q) :
    q.currentSize ≤ q.connections.length := by
  by_contra hc
  obtain ⟨e, h1, _⟩ := h q.connections.length (by omega)
  rw [List.getElem?_eq_none (le_refl _)] at h1
  exact absurd h1 (by simp)

theorem enqueueAll_spec :
    ∀ (es : List QueueConnectionElementType) (q : QueueConnectionsType),
      q.currentSize + es.length ≤ q.capacity → q.capacity ≤ q.connections.length →
      FdsInRange q → HeapProperty q →
      (∀ e ∈ es, 0 ≤ e.fd ∧ e.fd < q.indexQueue.length) →
      ∃ q1, applyOps q (es.map QueueOp.enqueue) = some q1 ∧
        q1.currentSize = q.currentSize + es.length ∧ q1.capacity = q.capacity ∧
        q1.connections.length = q.connections.length ∧
        FdsInRange q1 ∧ HeapProperty q1 ∧ (liveElements q1).Perm (liveElements q ++ es) := by
  intro es
  induction es with
  | nil =>
    intro q _ _ hfd hh _
    exact ⟨q, rfl, by simp, rfl, rfl, hfd, hh, by simp⟩
  | cons e es ih =>
    intro q hsz hcap hfd hh hes
    obtain ⟨q1, i1, hrun, hz1, hcap1, hl1, hiq1, hperm1, _, hheap1, _⟩ :=
      enqueueConnection_spec q e (by simp at hsz; omega) hcap (hes e (List.mem_cons_self _ _))
    have hfd1 : FdsInRange q1 := by
      intro x hx
      rw [hiq1]
      rcases List.mem_cons.mp (hperm1.mem_iff.mp hx) with h | h
      · rw [h]; exact hes e (List.mem_cons_self _ _)
      · exact hfd x h
    obtain ⟨q2, hrun2, hz2, hcap2, hl2, hfd2, hheap2, hperm2⟩ :=
      ih q1 (by simp at hsz; omega) (by omega) hfd1 (hheap1 hh)
        (fun x hx => by rw [hiq1]; exact hes x (List.mem_cons_of_mem _ hx))
    refine ⟨q2, ?_, by simp; omega, by omega, by omega, hfd2, hheap2, ?_⟩
    · simp only [List.map_cons, applyOps, applyOp, hrun, hrun2]
    · refine hperm2.trans ?_
      refine (List.Perm.append_right es hperm1).trans ?_
      simpa using (@List.perm_middle _ e (liveElements q) es).symm

theorem drainQueue_spec :
    ∀ (n : Nat) (q : QueueConnectionsType),
      q.currentSize = n → q.currentSize ≤ q.connections.length →
      FdsInRange q → HeapProperty q →
      ∃ roots qf, drainQueue n q = some (roots, qf) ∧ qf.currentSize = 0 ∧
        roots.Perm (liveElements q) ∧
        roots.Pairwise (fun a b => a.priorityTime ≤ b.priorityTime) := by
  intro n
  induction n with
  | zero =>
    intro q hz _ _ _
    refine ⟨[], q, rfl, hz, ?_, List.Pairwise.nil⟩
    unfold liveElements; rw [hz]; simp
  | succ m ih =>
    intro q hz hn hfd hh
    obtain ⟨q1, root, e0, hrun, hz1, _, hl1, hiq, hperm, hheap⟩ :=
      dequeueConnection_spec q (by omega) hn hfd
    have hfd1 : FdsInRange q1 := by
      intro x hx
      rw [hiq]
      exact hfd x (hperm.mem_iff.mpr (List.mem_cons_of_mem _ hx))
    obtain ⟨roots, qf, hdr, hzf, hp, hsorted⟩ := ih q1 (by omega) (by omega) hfd1 (hheap hh)
    refine ⟨root :: roots, qf, ?_, hzf, (hp.cons root).trans hperm.symm, ?_⟩
    · have hne : q.currentSize ≠ 0 := by omega
      simp only [drainQueue, peekQueueConnections, hne, if_false, e0, hrun, hdr]
    · rw [List.pairwise_cons]
      refine ⟨fun x hx => ?_, hsorted⟩
      exact root_le_live hh e0 x (hperm.mem_iff.mpr (List.mem_cons_of_mem _ (hp.mem_iff.mp hx)))

/-! ## The claims on the queue -/

/-- C1 (slot-table consistency as a reachable-state invariant) fails on the
code: from an empty queue, enqueueing fd 1 at time 10 and then fd 2 at time 5
sifts the second element up past the first; the sift-up loop of
`enqueueConnection` swaps the two heap slots without touching `indexQueue`, so
slot 1 holds fd 1 while `indexQueue[1]` is still 0. -/
theorem enqueueConnection_leaves_stale_slot :
    ∃ q, applyOps (emptyQueue 4 8) [.enqueue ⟨1, 10⟩, .enqueue ⟨2, 5⟩] = some q ∧
      q.currentSize = 2 ∧ q.connections[1]? = some ⟨1, 10⟩ ∧
      readIndexQueue q 1 = some 0 ∧ ¬ SlotConsistent q := by
  refine ⟨⟨[⟨2, 5⟩, ⟨1, 10⟩, ⟨0, 0⟩, ⟨0, 0⟩], 2, 4, [-1, 0, 0, -1, -1, -1, -1, -1]⟩,
    by decide, by decide, by decide, by decide, ?_⟩
  intro h
  obtain ⟨e, h1, h2⟩ := h 1 (by decide)
  simp at h1
  subst h1
  revert h2
  decide

/-- C2 (the min-heap property as a reachable-state invariant) fails on the
code: six enqueues build the heap with times `1, 10, 2, 11, 12, 3` (a heap with
a consistent slot table); `dequeueConnectionByFd` of the live fd 4 (slot 3)
moves the last element, time 3, into slot 3 and only sifts down, so slot 3 ends
below its parent slot 1 of time 10. -/
theorem dequeueConnectionByFd_breaks_heap :
    ∃ q0 q, applyOps (emptyQueue 8 8) [.enqueue ⟨1, 1⟩, .enqueue ⟨2, 10⟩, .enqueue ⟨3, 2⟩,
        .enqueue ⟨4, 11⟩, .enqueue ⟨5, 12⟩, .enqueue ⟨6, 3⟩] = some q0 ∧
      HeapProperty q0 ∧ SlotConsistent q0 ∧
      applyOp q0 (.dequeueByFd 4) = some q ∧ q.currentSize = 5 ∧
      keyAt q.connections (parentHeap 3) = 10 ∧ keyAt q.connections 3 = 3 ∧
      ¬ HeapProperty q := by
  refine ⟨⟨[⟨1, 1⟩, ⟨2, 10⟩, ⟨3, 2⟩, ⟨4, 11⟩, ⟨5, 12⟩, ⟨6, 3⟩, ⟨0, 0⟩, ⟨0, 0⟩], 6, 8,
      [-1, 0, 1, 2, 3, 4, 5, -1]⟩,
    ⟨[⟨1, 1⟩, ⟨2, 10⟩, ⟨3, 2⟩, ⟨6, 3⟩, ⟨5, 12⟩, ⟨0, 0⟩, ⟨0, 0⟩, ⟨0, 0⟩], 5, 8,
      [-1, 0, 1, 2, -1, 4, 3, -1]⟩, by decide!, ?_, ?_, by decide!, by decide, by decide,
      by decide, ?_⟩
  · intro i h0 hi
    simp only at hi
    interval_cases i <;> decide
  · intro i hi
    simp only at hi
    interval_cases i
    · exact ⟨⟨1, 1⟩, by decide, by decide⟩
    · exact ⟨⟨2, 10⟩, by decide, by decide⟩
    · exact ⟨⟨3, 2⟩, by decide, by decide⟩
    · exact ⟨⟨4, 11⟩, by decide, by decide⟩
    · exact ⟨⟨5, 12⟩, by decide, by decide⟩
    · exact ⟨⟨6, 3⟩, by decide, by decide⟩
  · intro h
    have := h 3 (by decide) (by decide)
    revert this
    decide

/-- C3: from an empty queue, after enqueueing the elements `es` (descriptors
inside the slot table, no more elements than the capacity; distinctness of the
descriptors is not needed), calling `peekQueueConnections` and
`dequeueConnection` `currentSize` times succeeds, empties the queue, and the
roots observed are in non-decreasing order of `priorityTime` and form a
permutation of `es`. -/
theorem dequeue_all_sorted_permutation (q0 : QueueConnectionsType)
    (es : List QueueConnectionElementType)
    (hempty : q0.currentSize = 0) (hcap : q0.capacity ≤ q0.connections.length)
    (hlen : es.length ≤ q0.capacity)
    (hfd : ∀ e ∈ es, 0 ≤ e.fd ∧ e.fd < q0.indexQueue.length) :
    ∃ q roots qf, applyOps q0 (es.map QueueOp.enqueue) = some q ∧
      q.currentSize = es.length ∧
      drainQueue q.currentSize q = some (roots, qf) ∧ qf.currentSize = 0 ∧
      roots.Pairwise (fun a b => a.priorityTime ≤ b.priorityTime) ∧ roots.Perm es := by
  have hlive0 : liveElements q0 = [] := by unfold liveElements; rw [hempty]; simp
  have hfd0 : FdsInRange q0 := by intro e he; rw [hlive0] at he; simp at he
  have hh0 : HeapProperty q0 := by
    intro i _ hi
    have hi1 : i < q0.currentSize := hi
    omega
  obtain ⟨q, hrun, hz, hc, hl, hfdq, hhq, hperm⟩ :=
    enqueueAll_spec es q0 (by omega) hcap hfd0 hh0 hfd
  obtain ⟨roots, qf, hdr, hzf, hp, hsorted⟩ :=
    drainQueue_spec q.currentSize q rfl (by omega) hfdq hhq
  refine ⟨q, roots, qf, hrun, by omega, hdr, hzf, hsorted, ?_⟩
  rw [hlive0] at hperm
  simpa using hp.trans hperm

/-- Witness of C3 on three elements enqueued out of order. -/
theorem dequeue_all_sorted_permutation_witness :
    ∃ q roots qf,
      applyOps (emptyQueue 4 8)
        ([⟨1, 30⟩, ⟨2, 10⟩, ⟨3, 20⟩].map QueueOp.enqueue) = some q ∧
      q.currentSize = [(⟨1, 30⟩ : QueueConnectionElementType), ⟨2, 10⟩, ⟨3, 20⟩].length ∧
      drainQueue q.currentSize q = some (roots, qf) ∧ qf.currentSize = 0 ∧
      roots.Pairwise (fun a b => a.priorityTime ≤ b.priorityTime) ∧
      roots.Perm [⟨1, 30⟩, ⟨2, 10⟩, ⟨3, 20⟩] :=
  dequeue_all_sorted_permutation (emptyQueue 4 8) [⟨1, 30⟩, ⟨2, 10⟩, ⟨3, 20⟩]
    (by decide) (by decide) (by decide) (by decide)

/-- C4 (the removed descriptor maps to the sentinel) fails on the code when
the removed element is the last live slot: both dequeue functions assign
`indexQueue[fd] = -1` and then `indexQueue[fdLast] = ...`, and `fdLast` is the
removed descriptor itself. With fd 3 the only element of a consistent queue,
`dequeueConnection` and `dequeueConnectionByFd(3)` leave `indexQueue[3] = 0`;
with fds 1 and 2 live, `dequeueConnectionByFd(2)` leaves `indexQueue[2] = 1`. -/
theorem dequeue_last_slot_keeps_table_entry :
    (∃ q, applyOps (emptyQueue 4 8) [.enqueue ⟨3, 7⟩] = some q ∧ SlotConsistent q ∧
      (∃ q1, dequeueConnection q = some q1 ∧ q1.currentSize = 0 ∧
        readIndexQueue q1 3 = some 0) ∧
      (∃ q1, dequeueConnectionByFd q 3 = some q1 ∧ q1.currentSize = 0 ∧
        readIndexQueue q1 3 = some 0)) ∧
    (∃ q, applyOps (emptyQueue 4 8) [.enqueue ⟨1, 7⟩, .enqueue ⟨2, 8⟩] = some q ∧
      SlotConsistent q ∧
      ∃ q1, dequeueConnectionByFd q 2 = some q1 ∧ q1.currentSize = 1 ∧
        readIndexQueue q1 2 = some 1) := by
  constructor
  · refine ⟨⟨[⟨3, 7⟩, ⟨0, 0⟩, ⟨0, 0⟩, ⟨0, 0⟩], 1, 4, [-1, -1, -1, 0, -1, -1, -1, -1]⟩,
      by decide, ?_, ?_, ?_⟩
    · intro i hi
      simp only at hi
      interval_cases i
      exact ⟨⟨3, 7⟩, by decide, by decide⟩
    · exact ⟨⟨[⟨0, 0⟩, ⟨0, 0⟩, ⟨0, 0⟩, ⟨0, 0⟩], 0, 4, [-1, -1, -1, 0, -1, -1, -1, -1]⟩,
        by decide, by decide, by decide⟩
    · exact ⟨⟨[⟨0, 0⟩, ⟨0, 0⟩, ⟨0, 0⟩, ⟨0, 0⟩], 0, 4, [-1, -1, -1, 0, -1, -1, -1, -1]⟩,
        by decide, by decide, by decide⟩
  · refine ⟨⟨[⟨1, 7⟩, ⟨2, 8⟩, ⟨0, 0⟩, ⟨0, 0⟩], 2, 4, [-1, 0, 1, -1, -1, -1, -1, -1]⟩,
      by decide, ?_, ?_⟩
    · intro i hi
      simp only at hi
      interval_cases i
      · exact ⟨⟨1, 7⟩, by decide, by decide⟩
      · exact ⟨⟨2, 8⟩, by decide, by decide⟩
    · exact ⟨⟨[⟨1, 7⟩, ⟨0, 0⟩, ⟨0, 0⟩, ⟨0, 0⟩], 1, 4, [-1, 0, 1, -1, -1, -1, -1, -1]⟩,
        by decide, by decide, by decide⟩

theorem set_eq_self_of_getElem? {α : Type} (l : List α) (i : Nat) (a : α)
    (h : l[i]? = some a) : l.set i a = l := by
  apply List.ext_getElem?
  intro j
  rw [List.getElem?_set]
  by_cases hij : i = j
  · subst hij
    have : i < l.length := by
      by_contra hc
      rw [List.getElem?_eq_none (by omega)] at h
      exact absurd h (by simp)
    simp [this, h]
  · simp [hij]

/-- C5: on a queue that satisfies the heap property and whose slot table is
consistent, `updateQueueConnection(fd, t)` of a live `fd` succeeds; afterwards
the live element with that descriptor has `priorityTime = t`, the live
descriptors are the same as before, and `peekQueueConnections` returns a live
element whose `priorityTime` is at most that of every live element. Scenario:
with A, B, C (fds 4, 5, 6) enqueued at `t`, `t + 1`, `t + 2`, the call
`update(A, t + 3)` makes the peek return B. -/
theorem updateQueueConnection_correct :
    (∀ (q : QueueConnectionsType) (fd t : Int),
      HeapProperty q → SlotConsistent q → (∃ e ∈ liveElements q, e.fd = fd) →
      ∃ q1, updateQueueConnection q fd t = some q1 ∧
        (∃ e ∈ liveElements q1, e.fd = fd) ∧
        (∀ e ∈ liveElements q1, e.fd = fd → e.priorityTime = t) ∧
        q1.currentSize = q.currentSize ∧
        ((liveElements q1).map (fun e => e.fd)).Perm ((liveElements q).map (fun e => e.fd)) ∧
        ∃ r, peekQueueConnections q1 = some r ∧ r ∈ liveElements q1 ∧
          ∀ e ∈ liveElements q1, r.priorityTime ≤ e.priorityTime) ∧
    (∀ t : Int, ∃ q,
      applyOps (emptyQueue 4 8)
        [.enqueue ⟨4, t⟩, .enqueue ⟨5, t + 1⟩, .enqueue ⟨6, t + 2⟩, .update 4 (t + 3)] = some q ∧
      peekQueueConnections q = some ⟨5, t + 1⟩) := by
  constructor
  · intro q fd t hh hs ⟨e0, he0, hfd0⟩
    obtain ⟨i, hi, hie⟩ := mem_liveElements_iff.mp he0
    have hidx : readIndexQueue q fd = some (i : Int) := by
      obtain ⟨e1, h1, h2⟩ := hs i hi
      rw [hie] at h1; cases h1
      rw [← hfd0]; exact h2
    have hn := size_le_of_slotConsistent hs
    obtain ⟨q1, hrun, hz, _, hl, _, hperm, hheap⟩ :=
      updateQueueConnection_spec q fd t i e0 hn (fdsInRange_of_slotConsistent hs) hidx hi hie
        hfd0
    have hlen : i < (liveElements q).length := by
      unfold liveElements; rw [List.length_take]; omega
    have hli : (liveElements q)[i]? = some e0 := by
      unfold liveElements; rw [List.getElem?_take_of_lt hi]; exact hie
    refine ⟨q1, hrun, ⟨⟨fd, t⟩, ?_, rfl⟩, ?_, hz, ?_, ?_⟩
    · apply hperm.mem_iff.mpr
      apply List.getElem?_mem (n := i)
      simp [List.getElem?_set, hlen]
    · intro e he hefd
      have he1 := hperm.mem_iff.mp he
      obtain ⟨j, hj⟩ := List.mem_iff_getElem?.mp he1
      rw [List.getElem?_set] at hj
      by_cases hij : i = j
      · rw [if_pos hij, if_pos hlen] at hj
        cases hj; rfl
      · rw [if_neg hij] at hj
        exfalso
        have hjl : e ∈ liveElements q := List.getElem?_mem hj
        unfold liveElements at hj
        rw [List.getElem?_take] at hj
        by_cases hjn : j < q.currentSize
        · rw [if_pos hjn] at hj
          obtain ⟨e1, h1, h2⟩ := hs j hjn
          rw [hj] at h1; cases h1
          rw [hefd, hidx] at h2
          simp at h2
          exact hij h2
        · rw [if_neg hjn] at hj; exact absurd hj (by simp)
    · refine (hperm.map _).trans ?_
      rw [List.map_set]
      rw [set_eq_self_of_getElem?]
      rw [List.getElem?_map, hli]
      simp [hfd0]
    · have hpos : 0 < q1.currentSize := by omega
      have h0 : 0 < q1.connections.length := by omega
      have hr : q1.connections[0]? = some q1.connections[0] := List.getElem?_eq_getElem h0
      refine ⟨q1.connections[0], ?_, mem_liveElements_of_getElem? hpos hr,
        root_le_live (hheap hh) hr⟩
      have hne : q1.currentSize ≠ 0 := by omega
      simp only [peekQueueConnections, hne, if_false, hr]
  · intro t
    refine ⟨⟨[⟨5, t + 1⟩, ⟨4, t + 3⟩, ⟨6, t + 2⟩, ⟨0, 0⟩], 3, 4,
      [-1, -1, -1, -1, 1, 0, 2, -1]⟩, ?_, by simp [peekQueueConnections]⟩
    simp [applyOps, applyOp, emptyQueue, enqueueConnection, shiftUpLoop, writeIndexQueue,
      updateQueueConnection, readIndexQueue, heapify, heapifyAux, heapifySmallest, heapifySwap,
      swapConnectionElementHeap, parentHeap, leftChildHeap, rightChildHeap, difftime,
      List.replicate]



/-- Witness of C5 on the scenario queue: fd 4 is refreshed to time 103. -/
theorem updateQueueConnection_correct_witness :
    ∃ q1, updateQueueConnection scenarioQueue 4 103 = some q1 ∧
      (∃ e ∈ liveElements q1, e.fd = 4) ∧
      (∀ e ∈ liveElements q1, e.fd = 4 → e.priorityTime = 103) ∧
      q1.currentSize = scenarioQueue.currentSize ∧
      ((liveElements q1).map (fun e => e.fd)).Perm
        ((liveElements scenarioQueue).map (fun e => e.fd)) ∧
      ∃ r, peekQueueConnections q1 = some r ∧ r ∈ liveElements q1 ∧
        ∀ e ∈ liveElements q1, r.priorityTime ≤ e.priorityTime :=
  updateQueueConnection_correct.1 scenarioQueue 4 103
    (by
      intro i h0 hi
      have hi3 : i < 3 := hi
      interval_cases i <;> decide)
    (by
      intro i hi
      have hi3 : i < 3 := hi
      interval_cases i
      · exact ⟨⟨4, 100⟩, by decide, by decide⟩
      · exact ⟨⟨5, 101⟩, by decide, by decide⟩
      · exact ⟨⟨6, 102⟩, by decide, by decide⟩)
    ⟨⟨4, 100⟩, by decide, rfl⟩

theorem writeIndexQueue_fields {q q1 : QueueConnectionsType} {fd v : Int}
    (h : writeIndexQueue q fd v = some q1) :
    q1.connections = q.connections ∧ q1.currentSize = q.currentSize ∧
      q1.capacity = q.capacity := by
  unfold writeIndexQueue at h
  split at h
  · cases h; exact ⟨rfl, rfl, rfl⟩
  · exact absurd h (by simp)

/-- C6: `enqueueConnection` on a queue with `currentSize == capacity` returns
the queue unchanged (heap array, `currentSize`, `capacity` and slot table), and
an enqueue never takes `currentSize` above `capacity`. -/
theorem enqueueConnection_full_unchanged (q : QueueConnectionsType)
    (connection : QueueConnectionElementType) :
    (q.currentSize = q.capacity → enqueueConnection q connection = some q) ∧
    (∀ q1, q.currentSize ≤ q.capacity → enqueueConnection q connection = some q1 →
      q1.currentSize ≤ q1.capacity) := by
  constructor
  · intro h
    simp [enqueueConnection, h]
  · intro q1 hle hrun
    unfold enqueueConnection at hrun
    by_cases hfull : q.currentSize = q.capacity
    · rw [if_pos hfull] at hrun
      cases hrun; exact hle
    · rw [if_neg hfull] at hrun
      split at hrun
      · simp only at hrun
        split at hrun
        · exact absurd hrun (by simp)
        · obtain ⟨_, h2, h3⟩ := writeIndexQueue_fields hrun
          rw [h2, h3]; simp only; omega
      · exact absurd hrun (by simp)

/-- Witness of C6 on a full queue of two slots. -/
theorem enqueueConnection_full_unchanged_witness :
    enqueueConnection ⟨[⟨3, 1⟩, ⟨4, 2⟩], 2, 2, [-1, -1, -1, 0, 1]⟩ ⟨1, 0⟩ =
      some ⟨[⟨3, 1⟩, ⟨4, 2⟩], 2, 2, [-1, -1, -1, 0, 1]⟩ :=
  (enqueueConnection_full_unchanged ⟨[⟨3, 1⟩, ⟨4, 2⟩], 2, 2, [-1, -1, -1, 0, 1]⟩ ⟨1, 0⟩).1
    (by decide)

/-- C7 (updating an absent fd is a no-op) fails on the code:
`updateQueueConnection` uses `indexQueue[fd]` as a heap slot without the test
`index == -1` that `dequeueConnectionByFd` has. With fd 3 live and fd 1 absent
(`indexQueue[1] == -1`), the call for fd 1 accesses `connections[-1]`, outside
the array, instead of returning the queue unchanged. -/
theorem updateQueueConnection_absent_fd_out_of_bounds :
    readIndexQueue ⟨[⟨3, 7⟩, ⟨0, 0⟩, ⟨0, 0⟩, ⟨0, 0⟩], 1, 4, [-1, -1, -1, 0, -1, -1, -1, -1]⟩ 1
      = some (-1) ∧
    updateQueueConnection
      ⟨[⟨3, 7⟩, ⟨0, 0⟩, ⟨0, 0⟩, ⟨0, 0⟩], 1, 4, [-1, -1, -1, 0, -1, -1, -1, -1]⟩ 1 9 = none ∧
    dequeueConnectionByFd
      ⟨[⟨3, 7⟩, ⟨0, 0⟩, ⟨0, 0⟩, ⟨0, 0⟩], 1, 4, [-1, -1, -1, 0, -1, -1, -1, -1]⟩ 1 =
      some ⟨[⟨3, 7⟩, ⟨0, 0⟩, ⟨0, 0⟩, ⟨0, 0⟩], 1, 4, [-1, -1, -1, 0, -1, -1, -1, -1]⟩ := by
  refine ⟨by decide, by decide, by decide⟩

/-- C8 as stated (out-of-range descriptors are rejected without effect) is
false: `enqueueConnection` on an empty queue of capacity 4 with fd `-1`, or
with fd 8 on a slot table of 8 entries, does not return the queue unchanged. -/
theorem enqueueConnection_out_of_range_not_rejected :
    enqueueConnection (emptyQueue 4 8) ⟨-1, 5⟩ ≠ some (emptyQueue 4 8) ∧
    enqueueConnection (emptyQueue 4 8) ⟨8, 5⟩ ≠ some (emptyQueue 4 8) := by
  decide

theorem readIndexQueue_out_of_range (q : QueueConnectionsType) (fd : Int)
    (hfd : fd < 0 ∨ (q.indexQueue.length : Int) ≤ fd) : readIndexQueue q fd = none := by
  unfold readIndexQueue
  by_cases h0 : 0 ≤ fd
  · rw [if_pos h0]
    exact List.getElem?_eq_none (by omega)
  · rw [if_neg h0]

theorem writeIndexQueue_out_of_range (q : QueueConnectionsType) (fd v : Int)
    (hfd : fd < 0 ∨ (q.indexQueue.length : Int) ≤ fd) : writeIndexQueue q fd v = none := by
  unfold writeIndexQueue
  rw [if_neg]
  intro h
  omega

/-- C8 amended: the queue never validates a descriptor. For an fd that is
negative or not below the size of the slot table, a call leaves the queue
unchanged only through the guards that run before any table access
(`enqueueConnection` on a full queue, `dequeueConnectionByFd` on an empty
queue); every other call of the three operations indexes `indexQueue` outside
its bounds and has no defined result. -/
theorem out_of_range_fd_not_validated (q : QueueConnectionsType)
    (connection : QueueConnectionElementType) (fd now : Int)
    (hfd : fd < 0 ∨ (q.indexQueue.length : Int) ≤ fd) (hc : connection.fd = fd) :
    (q.currentSize = q.capacity → enqueueConnection q connection = some q) ∧
    (q.currentSize ≠ q.capacity → enqueueConnection q connection = none) ∧
    updateQueueConnection q fd now = none ∧
    (q.currentSize = 0 → dequeueConnectionByFd q fd = some q) ∧
    (q.currentSize ≠ 0 → dequeueConnectionByFd q fd = none) := by
  refine ⟨?_, ?_, ?_, ?_, ?_⟩
  · intro h
    simp [enqueueConnection, h]
  · intro h
    unfold enqueueConnection
    rw [if_neg h]
    split
    · simp only
      split
      · rfl
      · rw [hc]
        exact writeIndexQueue_out_of_range _ fd _ hfd
    · rfl
  · unfold updateQueueConnection
    rw [readIndexQueue_out_of_range q fd hfd]
  · intro h
    simp [dequeueConnectionByFd, h]
  · intro h
    unfold dequeueConnectionByFd
    rw [if_neg h, readIndexQueue_out_of_range q fd hfd]

/-- Witness of the amended C8 with fd `-1` on a queue holding one element. -/
theorem out_of_range_fd_not_validated_witness :
    enqueueConnection ⟨[⟨3, 7⟩, ⟨0, 0⟩], 1, 2, [-1, -1, -1, 0]⟩ ⟨-1, 5⟩ = none ∧
    updateQueueConnection ⟨[⟨3, 7⟩, ⟨0, 0⟩], 1, 2, [-1, -1, -1, 0]⟩ (-1) 9 = none ∧
    dequeueConnectionByFd ⟨[⟨3, 7⟩, ⟨0, 0⟩], 1, 2, [-1, -1, -1, 0]⟩ (-1) = none :=
  have h := out_of_range_fd_not_validated ⟨[⟨3, 7⟩, ⟨0, 0⟩], 1, 2, [-1, -1, -1, 0]⟩ ⟨-1, 5⟩
    (-1) 9 (by decide) rfl
  ⟨h.2.1 (by decide), h.2.2.1, h.2.2.2.2 (by decide)⟩


/-! ## The response builder -/

namespace Response

/-- The state of the staging array between two `snprintf` calls: either
nothing was cut and the string ends at `offset`, or the array is full. -/
def StagingInv (size : Nat) (state : List Char × Nat) : Prop :=
  (state.2 < size ∧ state.1.length = state.2) ∨ (size ≤ state.2 ∧ state.1.length = size - 1)

theorem snprintfAt_spec {size : Nat} {st st1 : List Char × Nat} {s : List Char}
    (hinv : StagingInv size st) (h : snprintfAt size st s = .ok st1) :
    StagingInv size st1 ∧ st1.2 = st.2 + s.length ∧ st.2 ≤ size ∧ st.1 <+: st1.1 ∧
      (st1.2 < size → st1.1 = st.1 ++ s) := by
  obtain ⟨buf, off⟩ := st
  unfold snprintfAt at h
  simp only at h
  unfold StagingInv at hinv
  simp only at hinv
  by_cases h1 : size < off
  · rw [if_pos h1] at h; cases h
  · rw [if_neg h1] at h
    by_cases h2 : size - off = 0
    · rw [if_pos h2] at h
      cases h
      refine ⟨Or.inr ⟨by simp only; omega, ?_⟩, rfl, by simp only; omega,
        List.prefix_refl _, ?_⟩
      · rcases hinv with ⟨ha, _⟩ | ⟨_, hb⟩
        · omega
        · exact hb
      · intro hlt; simp only at hlt; omega
    · rw [if_neg h2] at h
      rcases hinv with ⟨ha, hb⟩ | ⟨ha, _⟩
      · have h3 : ¬ buf.length < off := by omega
        rw [if_neg h3] at h
        cases h
        have htake : buf.take off = buf := List.take_of_length_le (by omega)
        refine ⟨?_, rfl, by simp only; omega, ?_, ?_⟩
        · unfold StagingInv
          simp only [htake, List.length_append, List.length_take]
          omega
        · simp only [htake]; exact List.prefix_append _ _
        · intro hlt
          simp only at hlt
          simp only [htake]
          rw [List.take_of_length_le (by omega)]
      · omega

theorem composeHeaders_spec (size : Nat) :
    ∀ (lines : List (List Char)) (st fin : List Char × Nat),
      StagingInv size st → composeHeaders size st lines = .ok fin →
      StagingInv size fin ∧ fin.2 = st.2 + (lines.map List.length).sum ∧ st.1 <+: fin.1 ∧
        (fin.2 < size → fin.1 = st.1 ++ lines.flatten) := by
  intro lines
  induction lines with
  | nil =>
    intro st fin hinv h
    simp only [composeHeaders] at h
    cases h
    exact ⟨hinv, by simp, List.prefix_refl _, fun _ => by simp⟩
  | cons s rest ih =>
    intro st fin hinv h
    simp only [composeHeaders] at h
    cases h1 : snprintfAt size st s with
    | error e => rw [h1] at h; cases h
    | ok st1 =>
      rw [h1] at h
      obtain ⟨hi1, ho1, _, hp1, hf1⟩ := snprintfAt_spec hinv h1
      obtain ⟨hi2, ho2, hp2, hf2⟩ := ih st1 fin hi1 h
      refine ⟨hi2, by simp only [List.map_cons, List.sum_cons]; omega, hp1.trans hp2, ?_⟩
      intro hlt
      rw [hf2 hlt, hf1 (by omega)]
      simp

theorem composeHeaders_append (size : Nat) :
    ∀ (l1 l2 : List (List Char)) (st fin : List Char × Nat),
      composeHeaders size st (l1 ++ l2) = .ok fin →
      ∃ mid, composeHeaders size st l1 = .ok mid ∧ composeHeaders size mid l2 = .ok fin := by
  intro l1
  induction l1 with
  | nil => intro l2 st fin h; exact ⟨st, rfl, h⟩
  | cons s rest ih =>
    intro l2 st fin h
    simp only [List.cons_append, composeHeaders] at h
    cases h1 : snprintfAt size st s with
    | error e => rw [h1] at h; cases h
    | ok st1 =>
      rw [h1] at h
      obtain ⟨mid, hm1, hm2⟩ := ih l2 st1 fin h
      exact ⟨mid, by simp only [composeHeaders, h1, hm1], hm2⟩

theorem composeHeaders_room {size : Nat} {st fin : List Char × Nat} {a b : List Char}
    {rest : List (List Char)} (hinv : StagingInv size st) (ha : a ≠ [])
    (h : composeHeaders size st (a :: b :: rest) = .ok fin) : st.2 < size := by
  simp only [composeHeaders] at h
  cases h1 : snprintfAt size st a with
  | error e => rw [h1] at h; cases h
  | ok st1 =>
    rw [h1] at h
    simp only at h
    obtain ⟨hi1, ho1, _, _, _⟩ := snprintfAt_spec hinv h1
    cases h2 : snprintfAt size st1 b with
    | error e => rw [h2] at h; cases h
    | ok st2 =>
      obtain ⟨_, _, hle, _, _⟩ := snprintfAt_spec hi1 h2
      have : 0 < a.length := List.length_pos.mpr ha
      omega

theorem makeResponse_ok {env : ResponseEnv} {connection c1 : QueueConnectionElementType}
    (h : makeResponse env connection = .ok c1) :
    ∃ file responseStatusCode statusCodeReason mimeType responseHeader offset,
      openBody env connection.absolutePath = .ok (file, responseStatusCode) ∧
      strCopySafe 33 (env.statusReason responseStatusCode) = .ok statusCodeReason ∧
      detectMimeType env file.fd = .ok mimeType ∧
      composeHeaders 1024 ([], 0)
        (responseHeaderLines env connection.protocolVersion responseStatusCode
          statusCodeReason
          (keepAliveRequested (getHeader connection.requestHeaders "connection".toList))
          file.size mimeType (env.strftime env.now) (env.strftime file.mtime)) =
        .ok (responseHeader, offset) ∧
      c1 = { connection with
              responseStatusCode := responseStatusCode
              bodyFd := file.fd
              bodyLength := file.size
              bodyOffset := 0
              keepAlive :=
                keepAliveRequested (getHeader connection.requestHeaders "connection".toList)
              responseBufferHeadersOffset := 0
              responseBufferHeadersLength := offset
              responseBufferHeaders := responseHeader } := by
  unfold makeResponse at h
  cases h1 : openBody env connection.absolutePath with
  | error e => rw [h1] at h; cases h
  | ok r1 =>
    obtain ⟨file, code⟩ := r1
    rw [h1] at h
    simp only at h
    cases h2 : strCopySafe 33 (env.statusReason code) with
    | error e => rw [h2] at h; cases h
    | ok reason =>
      rw [h2] at h
      simp only at h
      cases h3 : detectMimeType env file.fd with
      | error e => rw [h3] at h; cases h
      | ok mime =>
        rw [h3] at h
        simp only at h
        split at h
        · cases h4 : composeHeaders 1024 ([], 0)
            (responseHeaderLines env connection.protocolVersion code reason
              (keepAliveRequested (getHeader connection.requestHeaders "connection".toList))
              file.size mime (env.strftime env.now) (env.strftime file.mtime)) with
          | error e => rw [h4] at h; cases h
          | ok r4 =>
            obtain ⟨buf, off⟩ := r4
            rw [h4] at h
            simp only at h
            cases h
            exact ⟨file, code, reason, mime, buf, off, rfl, h2, h3, h4, rfl⟩
        · cases h

theorem keepAliveRequested_iff (connectionHeader : Option (List Char)) :
    keepAliveRequested connectionHeader = true ↔
      ∃ v, connectionHeader = some ('k' :: v) := by
  unfold keepAliveRequested
  split
  · rename_i v
    simp
  · rename_i hne
    constructor
    · intro h; cases h
    · rintro ⟨v, hv⟩
      exact absurd hv (hne v)

theorem stagingInv_start : StagingInv 1024 ([], 0) := by
  left; simp

set_option maxRecDepth 100000 in
/-- C9 as stated (keep-alive only for HTTP/1.1, first character compared
without regard to case) is false on the code: an HTTP/1.0 request with
`Connection: keep-alive` gets `keepAlive = true`, and an HTTP/1.1 request with
`Connection: Keep-Alive` gets `keepAlive = false`. -/
theorem makeResponse_keepAlive_ignores_protocol_and_case :
    (∃ c1, makeResponse (sampleEnv "text/plain".toList)
        (sampleConnection "HTTP/1.0".toList [⟨"Connection".toList, "keep-alive".toList⟩])
          = .ok c1 ∧ c1.keepAlive = true) ∧
    (∃ c1, makeResponse (sampleEnv "text/plain".toList)
        (sampleConnection "HTTP/1.1".toList [⟨"Connection".toList, "Keep-Alive".toList⟩])
          = .ok c1 ∧ c1.keepAlive = false) := by
  constructor
  · refine ⟨_, rfl, ?_⟩
    decide
  · refine ⟨_, rfl, ?_⟩
    decide

/-- C9 amended: whenever `makeResponse` returns, `keepAlive` is true exactly
when the request has a `Connection` header whose value begins with the
lower-case letter `k`, whatever the protocol version; in every other case
`keepAlive` is false and the composed header block contains the line
`connection: close`. -/
theorem makeResponse_keepAlive_iff (env : ResponseEnv)
    (connection c1 : QueueConnectionElementType)
    (h : makeResponse env connection = .ok c1) :
    (c1.keepAlive = true ↔
      ∃ v, getHeader connection.requestHeaders "connection".toList = some ('k' :: v)) ∧
    (c1.keepAlive = false → "connection: close\n".toList <:+: c1.responseBufferHeaders) := by
  obtain ⟨file, code, reason, mime, buf, off, _, _, _, hcomp, hc1⟩ := makeResponse_ok h
  subst hc1
  refine ⟨keepAliveRequested_iff _, ?_⟩
  intro hka
  simp only at hka
  rw [hka] at hcomp
  simp only
  have hlines : responseHeaderLines env connection.protocolVersion code reason false file.size
      mime (env.strftime env.now) (env.strftime file.mtime) =
      [connection.protocolVersion ++ " ".toList ++ formatUnsigned code ++ " ".toList ++
        reason ++ "\n".toList, "connection: close\n".toList] ++
      ["content-length: ".toList ++ formatUnsigned (file.size % 2 ^ 64).toNat ++ "\n".toList,
       "content-type: ".toList ++ mime ++ "\n".toList,
       "date: ".toList ++ env.strftime env.now ++ "\n".toList,
       "last-modified: ".toList ++ env.strftime file.mtime ++ "\n".toList,
       "server: ".toList ++ "Undefined Behaviour Server".toList ++ "\n".toList,
       "cache-control: ".toList ++ "private, no-cache, no-store, must-revalidate".toList ++
         "\n\n".toList] := by
    simp [responseHeaderLines]
  rw [hlines] at hcomp
  obtain ⟨mid, hm1, hm2⟩ := composeHeaders_append 1024 _ _ _ _ hcomp
  obtain ⟨hinv, _, _, hfull⟩ := composeHeaders_spec 1024 _ _ _ stagingInv_start hm1
  have hroom : mid.2 < 1024 := composeHeaders_room hinv (by simp) hm2
  obtain ⟨_, _, hpre, _⟩ := composeHeaders_spec 1024 _ _ _ hinv hm2
  have hmid := hfull hroom
  obtain ⟨t, ht⟩ := hpre
  refine ⟨connection.protocolVersion ++ " ".toList ++ formatUnsigned code ++ " ".toList ++
    reason ++ "\n".toList, t, ?_⟩
  simp only at ht
  rw [← ht, hmid]
  simp

set_option maxRecDepth 100000 in
/-- Witness of the amended C9 on an HTTP/1.0 request with
`Connection: keep-alive`. -/
theorem makeResponse_keepAlive_iff_witness :
    ∃ c1, makeResponse (sampleEnv "text/plain".toList)
        (sampleConnection "HTTP/1.0".toList [⟨"Connection".toList, "keep-alive".toList⟩])
          = .ok c1 ∧
      (c1.keepAlive = true ↔
        ∃ v, getHeader
          (sampleConnection "HTTP/1.0".toList
            [⟨"Connection".toList, "keep-alive".toList⟩]).requestHeaders
          "connection".toList = some ('k' :: v)) ∧
      (c1.keepAlive = false → "connection: close\n".toList <:+: c1.responseBufferHeaders) :=
  ⟨_, rfl, makeResponse_keepAlive_iff (sampleEnv "text/plain".toList)
    (sampleConnection "HTTP/1.0".toList [⟨"Connection".toList, "keep-alive".toList⟩]) _ rfl⟩

set_option maxRecDepth 100000 in
/-- C10 (the charset suffix is appended exactly to the types that begin with
`text/`) fails on the code: the test is `strcmp(mimeType, "text/") > 0`, which
holds for every string that sorts after `text/`. For the detector result
`video/mp4` the content type becomes `video/mp4; charset=UTF-8` and the header
block carries it; `text/plain` gets the suffix and `image/png` does not. -/
theorem makeResponse_charset_on_video_mp4 :
    strcmp "video/mp4".toList "text/".toList = 2 ∧
    detectMimeType (sampleEnv "video/mp4".toList) 9 = .ok "video/mp4; charset=UTF-8".toList ∧
    (∃ c1, makeResponse (sampleEnv "video/mp4".toList) (sampleConnection "HTTP/1.1".toList [])
        = .ok c1 ∧
      c1.responseBufferHeaders =
        ("HTTP/1.1 200 OK\nconnection: close\ncontent-length: 11\n" ++
         "content-type: video/mp4; charset=UTF-8\n" ++
         "date: Tue, 02 Jan 2024 10:00:00 GMT\n" ++
         "last-modified: Mon, 01 Jan 2024 09:00:00 GMT\n" ++
         "server: Undefined Behaviour Server\n" ++
         "cache-control: private, no-cache, no-store, must-revalidate\n\n").toList) ∧
    detectMimeType (sampleEnv "text/plain".toList) 9 = .ok "text/plain; charset=UTF-8".toList ∧
    detectMimeType (sampleEnv "image/png".toList) 9 = .ok "image/png".toList := by
  refine ⟨by decide, rfl, ⟨_, rfl, by decide⟩, rfl, rfl⟩

end Response

/-! ## The fuel of the loops never runs out

More fuel than the bound the callers pass does not change the result of the
sift-up loop or of `heapify`: the value `none` of an operation always stands
for an access outside an array. -/

theorem shiftUpLoop_fuel :
    ∀ (f1 f2 : Nat) (cs : List QueueConnectionElementType) (t : Int) (i : Nat),
      i ≤ f1 → i ≤ f2 → shiftUpLoop f1 cs t i = shiftUpLoop f2 cs t i := by
  intro f1
  induction f1 with
  | zero =>
    intro f2 cs t i h1 _
    have hi : i = 0 := by omega
    subst hi
    rw [shiftUpLoop]
    conv_rhs => rw [shiftUpLoop]
    simp
  | succ a ih =>
    intro f2 cs t i h1 h2
    by_cases hi : i = 0
    · subst hi
      rw [shiftUpLoop]
      conv_rhs => rw [shiftUpLoop]
      simp
    · obtain ⟨b, hb⟩ : ∃ b, f2 = b + 1 := ⟨f2 - 1, by omega⟩
      subst hb
      have hp := parentHeap_lt hi
      rw [shiftUpLoop]
      conv_rhs => rw [shiftUpLoop]
      simp only [ne_eq, hi, not_false_eq_true, if_true]
      cases cs[parentHeap i]? with
      | none => rfl
      | some p =>
        simp only
        split
        · cases swapConnectionElementHeap cs i (parentHeap i) with
          | none => rfl
          | some cs1 => exact ih b cs1 t (parentHeap i) (by omega) (by omega)
        · rfl

theorem heapifySmallest_bound {q : QueueConnectionsType} {i s : Nat}
    (h : heapifySmallest q i = some s) (hne : s ≠ i) : i < s ∧ s < q.currentSize := by
  unfold heapifySmallest at h
  simp only at h
  have hl : i < leftChildHeap i := by unfold leftChildHeap; omega
  have hr : i < rightChildHeap i := by unfold rightChildHeap; omega
  split at h
  · cases h
  · rename_i smallest hfirst
    have hs1 : smallest = i ∨ (smallest = leftChildHeap i ∧ leftChildHeap i < q.currentSize) := by
      split at hfirst
      · rename_i hlt
        split at hfirst
        · cases hfirst
          split
          · exact Or.inr ⟨rfl, hlt⟩
          · exact Or.inl rfl
        · cases hfirst
      · cases hfirst; exact Or.inl rfl
    split at h
    · rename_i hrt
      split at h
      · have hs := Option.some.inj h
        split at hs
        · rw [← hs]; exact ⟨hr, hrt⟩
        · subst hs
          rcases hs1 with h1 | ⟨h1, h2⟩
          · exact absurd h1 hne
          · rw [h1]; exact ⟨hl, h2⟩
      · cases h
    · cases h
      rcases hs1 with h1 | ⟨h1, h2⟩
      · exact absurd h1 hne
      · rw [h1]; exact ⟨hl, h2⟩

theorem heapifySwap_currentSize {q q3 : QueueConnectionsType} {i s : Nat}
    (h : heapifySwap q i s = some q3) : q3.currentSize = q.currentSize := by
  unfold heapifySwap at h
  split at h
  · cases h
  · simp only at h
    split at h
    · cases h
    · split at h
      · cases h
      · rename_i q2 hw2
        split at h
        · cases h
        · have h2 := (writeIndexQueue_fields hw2).2.1
          have h3 := (writeIndexQueue_fields h).2.1
          rw [h3, h2]

theorem heapifyAux_fuel :
    ∀ (f1 f2 : Nat) (q : QueueConnectionsType) (i : Nat),
      q.currentSize ≤ f1 + i + 1 → q.currentSize ≤ f2 + i + 1 →
      heapifyAux f1 q i = heapifyAux f2 q i := by
  intro f1
  induction f1 with
  | zero =>
    intro f2 q i h1 h2
    rw [heapifyAux]
    conv_rhs => rw [heapifyAux]
    cases hs : heapifySmallest q i with
    | none => rfl
    | some s =>
      simp only
      by_cases hsi : s = i
      · simp [hsi]
      · have := heapifySmallest_bound hs hsi
        omega
  | succ a ih =>
    intro f2 q i h1 h2
    rw [heapifyAux]
    conv_rhs => rw [heapifyAux]
    cases hs : heapifySmallest q i with
    | none => rfl
    | some s =>
      simp only
      by_cases hsi : s = i
      · simp [hsi]
      · have hb := heapifySmallest_bound hs hsi
        obtain ⟨b, hb2⟩ : ∃ b, f2 = b + 1 := ⟨f2 - 1, by omega⟩
        subst hb2
        simp only [ne_eq, hsi, not_false_eq_true, if_true]
        cases hw : heapifySwap q i s with
        | none => rfl
        | some q3 =>
          simp only
          have hz := heapifySwap_currentSize hw
          exact ih b q3 s (by omega) (by omega)

theorem heapify_fuel (q : QueueConnectionsType) (i fuel : Nat)
    (h : q.currentSize ≤ fuel + i + 1) : heapifyAux fuel q i = heapify q i :=
  heapifyAux_fuel fuel q.currentSize q i h (by omega)

/-! ## The response writer -/

namespace Response

/-- C11 (a record that reaches DONE has released its body descriptor) fails on
the code: for a body of length 0 whose descriptor 9 is open, the first test of
`sendResponseFile` sets the state to DONE and returns without `close(bodyFd)`
and without `bodyFd = -1`; the two other places that set DONE do both (here on
a body of 11 bytes sent in one call). -/
theorem sendResponseFile_empty_body_keeps_descriptor :
    (∃ c1, sendResponseFile [] emptyBodyConnection = .ok (c1, []) ∧
      c1.state = .STATE_CONNECTION_DONE ∧ c1.bodyFd = 9) ∧
    (∃ c1, sendResponseFile [.bytes 11] { emptyBodyConnection with bodyLength := 11 }
        = .ok (c1, []) ∧
      c1.state = .STATE_CONNECTION_DONE ∧ c1.bodyFd = -1) := by
  constructor
  · exact ⟨_, rfl, rfl, rfl⟩
  · exact ⟨_, rfl, rfl, rfl⟩

theorem sendResponseHeaders_offsets :
    ∀ (results : List SendResult) (c c1 : QueueConnectionElementType)
      (rest : List SendResult),
      sendResponseHeaders results c = .ok (c1, rest) → OffsetsWithinLengths c →
      OffsetsWithinLengths c1 := by
  intro results
  induction results with
  | nil => intro c c1 rest h; simp [sendResponseHeaders] at h
  | cons r more ih =>
    intro c c1 rest h hinv
    unfold sendResponseHeaders at h
    split at h
    · cases h
    · cases r with
      | eintr => exact ih c c1 rest h hinv
      | eagain =>
        simp only at h
        split at h
        · cases h; exact ⟨Nat.zero_le _, hinv.2⟩
        · cases h; exact hinv
      | error => cases h; exact hinv
      | bytes n =>
        simp only at h
        split at h
        · cases h
        · split at h
          · cases h
            refine ⟨?_, hinv.2⟩
            simp only; omega
          · split at h
            · cases h; exact ⟨Nat.zero_le _, hinv.2⟩
            · refine ih _ c1 rest h ⟨?_, hinv.2⟩
              simp only; omega

theorem sendResponseFileLoop_offsets :
    ∀ (results : List SendResult) (c c1 : QueueConnectionElementType)
      (rest : List SendResult),
      sendResponseFileLoop results c = .ok (c1, rest) → OffsetsWithinLengths c →
      0 ≤ c.bodyLength → OffsetsWithinLengths c1 := by
  intro results
  induction results with
  | nil => intro c c1 rest h; simp [sendResponseFileLoop] at h
  | cons r more ih =>
    intro c c1 rest h hinv hlen
    unfold sendResponseFileLoop at h
    cases r with
    | eintr => exact ih c c1 rest h hinv hlen
    | eagain =>
      simp only at h
      split at h
      · cases h; exact ⟨hinv.1, hlen⟩
      · cases h; exact hinv
    | error => cases h; exact hinv
    | bytes n =>
      simp only at h
      have hdiff : 0 ≤ c.bodyLength - c.bodyOffset := by have := hinv.2; omega
      have hmod : (c.bodyLength - c.bodyOffset) % 2 ^ 64 ≤ c.bodyLength - c.bodyOffset := by
        omega
      split at h
      · cases h
      · rename_i hreq
        have hn : (n : Int) ≤ c.bodyLength - c.bodyOffset := by omega
        split at h
        · cases h
          exact ⟨hinv.1, by simp only; omega⟩
        · split at h
          · cases h; exact ⟨hinv.1, hlen⟩
          · exact ih _ c1 rest h ⟨hinv.1, by simp only; omega⟩ hlen

/-- C12: for every record with
`responseBufferHeadersOffset <= responseBufferHeadersLength` and
`bodyOffset <= bodyLength`, whose `bodyLength` is a file size (`bodyLength >= 0`:
the only value the field receives is the `st_size` that `makeResponse` stores),
and every list of `send` or `sendfile` results on which the call returns (no
result transfers more than was asked for), the record after
`sendResponseHeaders` and the record after `sendResponseFile` satisfy both
inequalities. -/
theorem send_keeps_offsets_within_lengths (results : List SendResult)
    (c c1 : QueueConnectionElementType) (rest : List SendResult)
    (hinv : OffsetsWithinLengths c) (hlen : 0 ≤ c.bodyLength) :
    (sendResponseHeaders results c = .ok (c1, rest) → OffsetsWithinLengths c1) ∧
    (sendResponseFile results c = .ok (c1, rest) → OffsetsWithinLengths c1) := by
  constructor
  · intro h; exact sendResponseHeaders_offsets results c c1 rest h hinv
  · intro h
    unfold sendResponseFile at h
    split at h
    · cases h; exact ⟨hinv.1, hlen⟩
    · exact sendResponseFileLoop_offsets results c c1 rest h hinv hlen

/-- Witness of C12: 30 header bytes sent in two calls, and a body
of 11 bytes sent as 4 bytes followed by `EAGAIN`. -/
theorem send_keeps_offsets_within_lengths_witness :
    (∃ c1 rest, sendResponseHeaders [.bytes 10, .eintr, .bytes 20] headerPhaseConnection
        = .ok (c1, rest) ∧ OffsetsWithinLengths c1) ∧
    (∃ c1 rest, sendResponseFile [.bytes 4, .eagain] headerPhaseConnection
        = .ok (c1, rest) ∧ OffsetsWithinLengths c1) :=
  ⟨⟨_, _, rfl, (send_keeps_offsets_within_lengths [.bytes 10, .eintr, .bytes 20]
      headerPhaseConnection _ _ (by unfold OffsetsWithinLengths; decide) (by decide)).1 rfl⟩,
   ⟨_, _, rfl, (send_keeps_offsets_within_lengths [.bytes 4, .eagain]
      headerPhaseConnection _ _ (by unfold OffsetsWithinLengths; decide) (by decide)).2 rfl⟩⟩



theorem sendResponseHeaders_run :
    ∀ (results : List SendResult) (c c1 : QueueConnectionElementType)
      (rest : List SendResult),
      sendResponseHeaders results c = .ok (c1, rest) →
      c.responseBufferHeadersOffset < c.responseBufferHeadersLength →
      ∃ consumed, results = consumed ++ rest ∧
        ((c1.state = .STATE_CONNECTION_SEND_BODY ∧
          acceptedBytes consumed =
            c.responseBufferHeadersLength - c.responseBufferHeadersOffset ∧
          c1.doneForClose = c.doneForClose ∧ hasClosingResult consumed = false) ∨
         (c1.state = c.state ∧
          c1.responseBufferHeadersOffset =
            c.responseBufferHeadersOffset + acceptedBytes consumed ∧
          acceptedBytes consumed <
            c.responseBufferHeadersLength - c.responseBufferHeadersOffset ∧
          c1.doneForClose = (c.doneForClose || hasClosingResult consumed))) := by
  intro results
  induction results with
  | nil => intro c c1 rest h; simp [sendResponseHeaders] at h
  | cons r more ih =>
    intro c c1 rest h hlt
    unfold sendResponseHeaders at h
    split at h
    · cases h
    · cases r with
      | eintr =>
        obtain ⟨consumed, hc, hcase⟩ := ih c c1 rest h hlt
        refine ⟨.eintr :: consumed, by rw [hc]; rfl, ?_⟩
        simpa [acceptedBytes, hasClosingResult] using hcase
      | eagain =>
        simp only at h
        split at h
        · omega
        · cases h
          refine ⟨[.eagain], rfl, Or.inr ?_⟩
          simp [acceptedBytes, hasClosingResult]
          omega
      | error =>
        cases h
        refine ⟨[.error], rfl, Or.inr ?_⟩
        simp [acceptedBytes, hasClosingResult]
        omega
      | bytes n =>
        simp only at h
        split at h
        · cases h
        · rename_i hreq
          split at h
          · rename_i hn0
            cases h
            refine ⟨[.bytes n], rfl, Or.inr ?_⟩
            simp [acceptedBytes, hasClosingResult, hn0]
            omega
          · rename_i hn0
            split at h
            · rename_i hdone
              cases h
              refine ⟨[.bytes n], rfl, Or.inl ?_⟩
              try simp only at hdone
              simp [acceptedBytes, hasClosingResult, hn0]
              omega
            · rename_i hdone
              try simp only at hdone
              obtain ⟨consumed, hc, hcase⟩ := ih _ c1 rest h (by simp only; omega)
              refine ⟨.bytes n :: consumed, by rw [hc]; rfl, ?_⟩
              simp only at hcase
              rcases hcase with ⟨h1, h2, h3, h4⟩ | ⟨h1, h2, h3, h4⟩
              · left
                refine ⟨h1, ?_, h3, ?_⟩
                · simp only [acceptedBytes]; omega
                · simp [hasClosingResult, hn0, h4]
              · right
                refine ⟨h1, ?_, ?_, ?_⟩
                · simp only [acceptedBytes]; omega
                · simp only [acceptedBytes]; omega
                · have hb : (n == 0) = false := by simp [hn0]
                  rw [h4]; simp only [hasClosingResult, hb, Bool.false_or]

/-- C13: for a record in the header phase (state other than SEND_BODY) with
`responseBufferHeadersOffset < responseBufferHeadersLength` and a list of
`send` results on which `sendResponseHeaders` returns, let `consumed` be the
results of the calls it made. The state afterwards is SEND_BODY exactly when
the bytes accepted in total equal the bytes that remained; otherwise the state
is unchanged and the offset has advanced by the bytes accepted; `doneForClose`
is set exactly when a hard error or a zero-byte send is among the calls (it
is left as it was otherwise). -/
theorem sendResponseHeaders_outcome (results : List SendResult)
    (c c1 : QueueConnectionElementType) (rest : List SendResult)
    (hphase : c.state ≠ .STATE_CONNECTION_SEND_BODY)
    (hlt : c.responseBufferHeadersOffset < c.responseBufferHeadersLength)
    (h : sendResponseHeaders results c = .ok (c1, rest)) :
    ∃ consumed, results = consumed ++ rest ∧
      (c1.state = .STATE_CONNECTION_SEND_BODY ↔
        acceptedBytes consumed =
          c.responseBufferHeadersLength - c.responseBufferHeadersOffset) ∧
      (c1.state ≠ .STATE_CONNECTION_SEND_BODY →
        c1.state = c.state ∧
        c1.responseBufferHeadersOffset =
          c.responseBufferHeadersOffset + acceptedBytes consumed) ∧
      (c1.doneForClose = true ↔
        (c.doneForClose = true ∨ hasClosingResult consumed = true)) := by
  obtain ⟨consumed, hc, hcase⟩ := sendResponseHeaders_run results c c1 rest h hlt
  refine ⟨consumed, hc, ?_, ?_, ?_⟩
  · rcases hcase with ⟨h1, h2, _, _⟩ | ⟨h1, _, h3, _⟩
    · exact ⟨fun _ => h2, fun _ => h1⟩
    · constructor
      · intro hs; rw [h1] at hs; exact absurd hs hphase
      · intro he; omega
  · intro hs
    rcases hcase with ⟨h1, _, _, _⟩ | ⟨h1, h2, _, _⟩
    · exact absurd h1 hs
    · exact ⟨h1, h2⟩
  · rcases hcase with ⟨_, _, h3, h4⟩ | ⟨_, _, _, h4⟩
    · rw [h3, h4]; simp
    · rw [h4]; simp

/-- Witness of C13: of the 30 remaining header bytes, 10 and then 20 are
accepted, with an interrupted call in between. -/
theorem sendResponseHeaders_outcome_witness :
    ∃ c1, sendResponseHeaders [.bytes 10, .eintr, .bytes 20] headerPhaseConnection
        = .ok (c1, []) ∧
      ∃ consumed,
        [SendResult.bytes 10, .eintr, .bytes 20] = consumed ++ [] ∧
        (c1.state = .STATE_CONNECTION_SEND_BODY ↔
          acceptedBytes consumed =
            headerPhaseConnection.responseBufferHeadersLength -
              headerPhaseConnection.responseBufferHeadersOffset) ∧
        (c1.state ≠ .STATE_CONNECTION_SEND_BODY →
          c1.state = headerPhaseConnection.state ∧
          c1.responseBufferHeadersOffset =
            headerPhaseConnection.responseBufferHeadersOffset + acceptedBytes consumed) ∧
        (c1.doneForClose = true ↔
          (headerPhaseConnection.doneForClose = true ∨ hasClosingResult consumed = true)) :=
  ⟨_, rfl, sendResponseHeaders_outcome [.bytes 10, .eintr, .bytes 20] headerPhaseConnection
    _ [] (by decide) (by decide) rfl⟩

/-! ## The text of the header block -/

theorem snprintfAt_text {size : Nat} {st st1 : List Char × Nat} {s acc : List Char}
    (hbuf : st.1 = acc.take (size - 1)) (hoff : st.2 = acc.length)
    (h : snprintfAt size st s = .ok st1) :
    st1.1 = (acc ++ s).take (size - 1) ∧ st1.2 = (acc ++ s).length := by
  obtain ⟨buf, off⟩ := st
  simp only at hbuf hoff
  unfold snprintfAt at h
  simp only at h
  by_cases h1 : size < off
  · rw [if_pos h1] at h; cases h
  · rw [if_neg h1] at h
    by_cases h2 : size - off = 0
    · rw [if_pos h2] at h
      cases h
      refine ⟨?_, by simp [hoff]⟩
      simp only
      rw [hbuf, List.take_append_of_le_length (by omega)]
    · rw [if_neg h2] at h
      have hacc : acc.take (size - 1) = acc := List.take_of_length_le (by omega)
      have hbl : buf = acc := by rw [hbuf, hacc]
      subst hbl
      have h3 : ¬ buf.length < off := by omega
      rw [if_neg h3] at h
      cases h
      refine ⟨?_, by simp [hoff]⟩
      simp only
      have ht : buf.take off = buf := List.take_of_length_le (by omega)
      have hn : size - 1 - buf.length = size - off - 1 := by omega
      rw [ht, List.take_append_eq_append_take, hacc, hn]

theorem composeHeaders_text (size : Nat) :
    ∀ (lines : List (List Char)) (st fin : List Char × Nat) (acc : List Char),
      st.1 = acc.take (size - 1) → st.2 = acc.length →
      composeHeaders size st lines = .ok fin →
      fin.1 = (acc ++ lines.flatten).take (size - 1) ∧
        fin.2 = (acc ++ lines.flatten).length := by
  intro lines
  induction lines with
  | nil =>
    intro st fin acc hbuf hoff h
    simp only [composeHeaders] at h
    cases h
    simpa using ⟨hbuf, hoff⟩
  | cons s rest ih =>
    intro st fin acc hbuf hoff h
    simp only [composeHeaders] at h
    cases h1 : snprintfAt size st s with
    | error e => rw [h1] at h; cases h
    | ok st1 =>
      rw [h1] at h
      obtain ⟨hb1, ho1⟩ := snprintfAt_text hbuf hoff h1
      have := ih st1 fin (acc ++ s) hb1 ho1 h
      simpa using this

theorem responseHeaderLines_flatten (env : ResponseEnv) (protocolVersion : List Char)
    (responseStatusCode : Nat) (statusCodeReason : List Char) (keepAlive : Bool)
    (bodyLength : Int) (mimeType currentDate lastModifiedDate : List Char) :
    (responseHeaderLines env protocolVersion responseStatusCode statusCodeReason keepAlive
      bodyLength mimeType currentDate lastModifiedDate).flatten =
      headerBlockText protocolVersion responseStatusCode statusCodeReason keepAlive
        env.keepAliveTimeout bodyLength mimeType currentDate lastModifiedDate := by
  cases keepAlive <;>
    simp only [responseHeaderLines, headerBlockText, formatUnsigned, List.flatten_cons,
      List.flatten_nil, List.append_assoc, List.append_nil, List.cons_append,
      List.nil_append, Bool.false_eq_true, if_false, if_true] <;>
    rfl

theorem strCopySafe_ok {destSize : Nat} {src dest : List Char}
    (h : strCopySafe destSize src = .ok dest) : dest = src := by
  unfold strCopySafe at h
  split at h
  · cases h; rfl
  · cases h

theorem makeResponse_stored_text {env : ResponseEnv}
    {connection c1 : QueueConnectionElementType} (h : makeResponse env connection = .ok c1) :
    ∃ file mimeType,
      openBody env connection.absolutePath = .ok (file, c1.responseStatusCode) ∧
      detectMimeType env file.fd = .ok mimeType ∧
      c1.bodyFd = file.fd ∧ c1.bodyLength = file.size ∧ c1.bodyOffset = 0 ∧
      c1.responseBufferHeadersOffset = 0 ∧
      c1.responseBufferHeaders =
        (headerBlockText connection.protocolVersion c1.responseStatusCode
          (env.statusReason c1.responseStatusCode) c1.keepAlive env.keepAliveTimeout
          c1.bodyLength mimeType (env.strftime env.now) (env.strftime file.mtime)).take 1023 ∧
      c1.responseBufferHeadersLength =
        (headerBlockText connection.protocolVersion c1.responseStatusCode
          (env.statusReason c1.responseStatusCode) c1.keepAlive env.keepAliveTimeout
          c1.bodyLength mimeType (env.strftime env.now) (env.strftime file.mtime)).length := by
  obtain ⟨file, code, reason, mime, buf, off, hopen, hreason, hmime, hcomp, hc1⟩ :=
    makeResponse_ok h
  have hr := strCopySafe_ok hreason
  subst hr
  subst hc1
  obtain ⟨hb, ho⟩ := composeHeaders_text 1024 _ ([], 0) (buf, off) [] rfl rfl hcomp
  rw [responseHeaderLines_flatten] at hb ho
  exact ⟨file, mime, hopen, hmime, rfl, rfl, rfl, rfl, by simpa using hb, by simpa using ho⟩


theorem toDigits_length_le (n e : Nat) (he : 0 < e) (h : n < 10 ^ e) :
    (Nat.toDigits 10 n).length ≤ e := by
  unfold Nat.toDigits
  exact Nat.toDigitsCore_length 10 (by decide) (n + 1) n e h he

theorem formatInt_length_le {i : Int} (hlo : -2 ^ 31 ≤ i) (hhi : i < 2 ^ 31) :
    (formatInt i).length ≤ 11 := by
  unfold formatInt
  split
  · have := toDigits_length_le i.natAbs 10 (by decide) (by omega)
    simp only [List.length_cons]
    omega
  · have := toDigits_length_le i.toNat 10 (by decide) (by omega)
    omega

theorem detectMimeType_length {env : ResponseEnv} {bodyFd : Int} {mimeType : List Char}
    (h : detectMimeType env bodyFd = .ok mimeType) : mimeType.length ≤ 149 := by
  unfold detectMimeType at h
  split at h
  · cases h
  · split at h
    · cases h
    · split at h
      · split at h
        · cases h
        · split at h
          · cases h
          · rename_i copied hcopy
            unfold strCopySafe at hcopy
            split at hcopy
            · cases hcopy
              split at h
              · unfold strncat at h
                split at h
                · cases h
                  simp only [List.length_append]
                  omega
                · cases h
              · cases h
                omega
            · cases hcopy
      · cases h

theorem openBody_status {env : ResponseEnv} {absolutePath : List Char} {file : OpenedFile}
    {status : Nat} (h : openBody env absolutePath = .ok (file, status)) :
    (status = 200 ∨ status = 404 ∨ status = 500) ∧
    ∃ path, env.openFile path = .ok file := by
  unfold openBody at h
  split at h
  · rename_i f hf
    cases h
    exact ⟨Or.inl rfl, _, hf⟩
  · simp only at h
    split at h
    · cases h
    · rename_i f hf
      cases h
      refine ⟨?_, _, hf⟩
      split
      · exact Or.inr (Or.inl rfl)
      · exact Or.inr (Or.inr rfl)

theorem makeResponse_bounds {env : ResponseEnv}
    {connection c1 : QueueConnectionElementType} {file : OpenedFile}
    (h : makeResponse env connection = .ok c1)
    (hopen : openBody env connection.absolutePath = .ok (file, c1.responseStatusCode)) :
    (env.statusReason c1.responseStatusCode).length ≤ 32 ∧
    (env.strftime env.now).length < 100 ∧ (env.strftime file.mtime).length < 100 := by
  unfold makeResponse at h
  rw [hopen] at h
  simp only at h
  cases h2 : strCopySafe 33 (env.statusReason c1.responseStatusCode) with
  | error e => rw [h2] at h; cases h
  | ok reason =>
    rw [h2] at h
    simp only at h
    unfold strCopySafe at h2
    split at h2
    · cases h3 : detectMimeType env file.fd with
      | error e => rw [h3] at h; cases h
      | ok mime =>
        rw [h3] at h
        simp only at h
        split at h
        · rename_i hdates
          exact ⟨by omega, hdates.2, hdates.1⟩
        · cases h
    · cases h2

theorem headerBlockText_length_le {protocolVersion statusCodeReason mimeType currentDate
    lastModifiedDate : List Char} {responseStatusCode : Nat} {keepAliveTimeout : Int}
    (keepAlive : Bool) (bodyLength : Int)
    (hversion : protocolVersion.length ≤ 8)
    (hstatus : responseStatusCode = 200 ∨ responseStatusCode = 404 ∨ responseStatusCode = 500)
    (hreason : statusCodeReason.length ≤ 32)
    (hlo : -2 ^ 31 ≤ keepAliveTimeout) (hhi : keepAliveTimeout < 2 ^ 31)
    (hmime : mimeType.length ≤ 149)
    (hnow : currentDate.length < 100) (hmodified : lastModifiedDate.length < 100) :
    (headerBlockText protocolVersion responseStatusCode statusCodeReason keepAlive
      keepAliveTimeout bodyLength mimeType currentDate lastModifiedDate).length ≤ 619 := by
  have hcode : (Nat.toDigits 10 responseStatusCode).length ≤ 3 :=
    toDigits_length_le _ 3 (by decide) (by omega)
  have htimeout := formatInt_length_le hlo hhi
  have hlength : (Nat.toDigits 10 (bodyLength % 2 ^ 64).toNat).length ≤ 20 :=
    toDigits_length_le _ 20 (by decide) (by omega)
  have e1 : " ".toList.length = 1 := rfl
  have e2 : "\n".toList.length = 1 := rfl
  have e3 : "connection: keep-alive\n".toList.length = 23 := rfl
  have e4 : "keep-alive: timeout=".toList.length = 20 := rfl
  have e5 : "connection: close\n".toList.length = 18 := rfl
  have e6 : "content-length: ".toList.length = 16 := rfl
  have e7 : "content-type: ".toList.length = 14 := rfl
  have e8 : "date: ".toList.length = 6 := rfl
  have e9 : "last-modified: ".toList.length = 15 := rfl
  have e10 : "server: Undefined Behaviour Server\n".toList.length = 35 := rfl
  have e11 : "cache-control: private, no-cache, no-store, must-revalidate\n".toList.length
      = 60 := rfl
  unfold headerBlockText
  cases keepAlive
  · simp only [Bool.false_eq_true, if_false, List.length_append, e1, e2, e5, e6, e7, e8, e9,
      e10, e11]
    omega
  · simp only [if_true, List.length_append, e1, e2, e3, e4, e6, e7, e8, e9, e10, e11]
    omega

/-- C14: for a request whose protocol version has at most 8 characters
(`HTTP/1.0` and `HTTP/1.1`, the versions for which `makeResponse` is called),
with `KEEP_ALIVE_TIMEOUT` an `int` and every file size an `off_t` that is not
negative, whenever `makeResponse` returns, the header block it stores is
exactly, in this order: the status line `<protocol> <code> <reason>`, then
`connection: keep-alive` and `keep-alive: timeout=<T>` or `connection: close`,
then `content-length`, `content-type`, `date`, `last-modified`, `server`,
`cache-control`, each line ended by one newline, and one more newline that
ends the block; `content-length` carries `bodyLength` in decimal. -/
theorem makeResponse_header_block_exact (env : ResponseEnv)
    (connection c1 : QueueConnectionElementType)
    (hversion : connection.protocolVersion.length ≤ 8)
    (htimeout : -2 ^ 31 ≤ env.keepAliveTimeout ∧ env.keepAliveTimeout < 2 ^ 31)
    (hstat : ∀ path file, env.openFile path = .ok file → 0 ≤ file.size ∧ file.size < 2 ^ 63)
    (h : makeResponse env connection = .ok c1) :
    ∃ file mimeType,
      openBody env connection.absolutePath = .ok (file, c1.responseStatusCode) ∧
      detectMimeType env file.fd = .ok mimeType ∧
      c1.responseBufferHeaders =
        connection.protocolVersion ++ " ".toList ++ Nat.toDigits 10 c1.responseStatusCode ++
          " ".toList ++ env.statusReason c1.responseStatusCode ++ "\n".toList ++
        (if c1.keepAlive then
          "connection: keep-alive\n".toList ++
          "keep-alive: timeout=".toList ++ formatInt env.keepAliveTimeout ++ "\n".toList
         else "connection: close\n".toList) ++
        "content-length: ".toList ++ Nat.toDigits 10 c1.bodyLength.toNat ++ "\n".toList ++
        "content-type: ".toList ++ mimeType ++ "\n".toList ++
        "date: ".toList ++ env.strftime env.now ++ "\n".toList ++
        "last-modified: ".toList ++ env.strftime file.mtime ++ "\n".toList ++
        "server: Undefined Behaviour Server\n".toList ++
        "cache-control: private, no-cache, no-store, must-revalidate\n".toList ++
        "\n".toList := by
  obtain ⟨file, mime, hopen, hmime, _, hsize, _, _, hbuf, _⟩ := makeResponse_stored_text h
  obtain ⟨hcode, path, hpath⟩ := openBody_status hopen
  obtain ⟨hreason, hnow, hmodified⟩ := makeResponse_bounds h hopen
  have hlen := headerBlockText_length_le c1.keepAlive c1.bodyLength hversion hcode hreason
    htimeout.1 htimeout.2 (detectMimeType_length hmime) hnow hmodified
  obtain ⟨h0, h1⟩ := hstat path file hpath
  rw [← hsize] at h0 h1
  refine ⟨file, mime, hopen, hmime, ?_⟩
  rw [hbuf, List.take_of_length_le (by omega)]
  unfold headerBlockText
  rw [Int.emod_eq_of_lt h0 (by omega)]

set_option maxRecDepth 100000 in
/-- Witness of C14 on the keep-alive request for `/hello.txt` over `HTTP/1.1`,
with a timeout of 5 seconds and files of 11, 153 and 160 bytes. -/
theorem makeResponse_header_block_exact_witness :
    ∃ c1, makeResponse (sampleEnv "text/plain".toList)
        (sampleConnection "HTTP/1.1".toList [⟨"Connection".toList, "keep-alive".toList⟩])
          = .ok c1 ∧
      c1.responseBufferHeaders =
        ("HTTP/1.1 200 OK\nconnection: keep-alive\nkeep-alive: timeout=5\n" ++
         "content-length: 11\ncontent-type: text/plain; charset=UTF-8\n" ++
         "date: Tue, 02 Jan 2024 10:00:00 GMT\n" ++
         "last-modified: Mon, 01 Jan 2024 09:00:00 GMT\n" ++
         "server: Undefined Behaviour Server\n" ++
         "cache-control: private, no-cache, no-store, must-revalidate\n\n").toList ∧
      ∃ file mimeType,
        openBody (sampleEnv "text/plain".toList)
          (sampleConnection "HTTP/1.1".toList
            [⟨"Connection".toList, "keep-alive".toList⟩]).absolutePath
            = .ok (file, c1.responseStatusCode) ∧
        detectMimeType (sampleEnv "text/plain".toList) file.fd = .ok mimeType ∧
        c1.responseBufferHeaders =
          (sampleConnection "HTTP/1.1".toList
            [⟨"Connection".toList, "keep-alive".toList⟩]).protocolVersion ++
            " ".toList ++ Nat.toDigits 10 c1.responseStatusCode ++ " ".toList ++
            (sampleEnv "text/plain".toList).statusReason c1.responseStatusCode ++
            "\n".toList ++
          (if c1.keepAlive then
            "connection: keep-alive\n".toList ++
            "keep-alive: timeout=".toList ++
              formatInt (sampleEnv "text/plain".toList).keepAliveTimeout ++ "\n".toList
           else "connection: close\n".toList) ++
          "content-length: ".toList ++ Nat.toDigits 10 c1.bodyLength.toNat ++ "\n".toList ++
          "content-type: ".toList ++ mimeType ++ "\n".toList ++
          "date: ".toList ++
            (sampleEnv "text/plain".toList).strftime (sampleEnv "text/plain".toList).now ++
            "\n".toList ++
          "last-modified: ".toList ++ (sampleEnv "text/plain".toList).strftime file.mtime ++
            "\n".toList ++
          "server: Undefined Behaviour Server\n".toList ++
          "cache-control: private, no-cache, no-store, must-revalidate\n".toList ++
          "\n".toList :=
  ⟨_, rfl, by decide!, makeResponse_header_block_exact (sampleEnv "text/plain".toList)
    (sampleConnection "HTTP/1.1".toList [⟨"Connection".toList, "keep-alive".toList⟩]) _
    (by decide) (by decide)
    (by
      intro path file hf
      simp only [sampleEnv] at hf
      split_ifs at hf <;> cases hf <;> decide)
    rfl⟩

theorem openBody_cases {env : ResponseEnv} {absolutePath : List Char} {file : OpenedFile}
    {status : Nat} (h : openBody env absolutePath = .ok (file, status)) :
    (∀ f, env.openFile absolutePath = .ok f → status = 200 ∧ file = f) ∧
    (env.openFile absolutePath = .error ENOENT →
      status = 404 ∧ env.openFile (env.htmlDir ++ "/error/404.html".toList) = .ok file) ∧
    (∀ errno, errno ≠ ENOENT → env.openFile absolutePath = .error errno →
      status = 500 ∧ env.openFile (env.htmlDir ++ "/error/error.html".toList) = .ok file) := by
  unfold openBody at h
  cases hopen : env.openFile absolutePath with
  | ok f0 =>
    rw [hopen] at h
    simp only at h
    cases h
    refine ⟨?_, ?_, ?_⟩
    · intro f hf; cases hf; exact ⟨rfl, rfl⟩
    · intro hf; cases hf
    · intro errno _ hf; cases hf
  | error e =>
    rw [hopen] at h
    simp only at h
    refine ⟨?_, ?_, ?_⟩
    · intro f hf; cases hf
    · intro hf
      cases hf
      simp only [if_true] at h
      cases ht : env.openFile (env.htmlDir ++ "/error/404.html".toList) with
      | error e1 => rw [ht] at h; cases h
      | ok f1 => rw [ht] at h; cases h; exact ⟨rfl, rfl⟩
    · intro errno hne hf
      cases hf
      simp only [hne, if_false] at h
      cases ht : env.openFile (env.htmlDir ++ "/error/error.html".toList) with
      | error e1 => rw [ht] at h; cases h
      | ok f1 => rw [ht] at h; cases h; exact ⟨rfl, rfl⟩

/-- C15: whenever `makeResponse` returns, `bodyOffset` is 0 and the status code
follows the outcome of opening `absolutePath`: 200 when the open succeeds (the
body is that file), 404 when it fails with `ENOENT` (the body is
`<htmlDir>/error/404.html`), 500 when it fails with any other error (the body
is `<htmlDir>/error/error.html`); in each case `bodyFd` and `bodyLength` are
the descriptor and the size of the file opened as body. -/
theorem makeResponse_status_and_body (env : ResponseEnv)
    (connection c1 : QueueConnectionElementType)
    (h : makeResponse env connection = .ok c1) :
    c1.bodyOffset = 0 ∧
    (∀ file, env.openFile connection.absolutePath = .ok file →
      c1.responseStatusCode = 200 ∧ c1.bodyFd = file.fd ∧ c1.bodyLength = file.size) ∧
    (env.openFile connection.absolutePath = .error ENOENT →
      c1.responseStatusCode = 404 ∧
      ∃ file, env.openFile (env.htmlDir ++ "/error/404.html".toList) = .ok file ∧
        c1.bodyFd = file.fd ∧ c1.bodyLength = file.size) ∧
    (∀ errno, errno ≠ ENOENT → env.openFile connection.absolutePath = .error errno →
      c1.responseStatusCode = 500 ∧
      ∃ file, env.openFile (env.htmlDir ++ "/error/error.html".toList) = .ok file ∧
        c1.bodyFd = file.fd ∧ c1.bodyLength = file.size) := by
  obtain ⟨file, mime, hopen, _, hfd, hsize, hoff, _, _, _⟩ := makeResponse_stored_text h
  obtain ⟨h200, h404, h500⟩ := openBody_cases hopen
  refine ⟨hoff, ?_, ?_, ?_⟩
  · intro f hf
    obtain ⟨hs, hfile⟩ := h200 f hf
    subst hfile
    exact ⟨hs, hfd, hsize⟩
  · intro hf
    obtain ⟨hs, ht⟩ := h404 hf
    exact ⟨hs, file, ht, hfd, hsize⟩
  · intro errno hne hf
    obtain ⟨hs, ht⟩ := h500 errno hne hf
    exact ⟨hs, file, ht, hfd, hsize⟩

set_option maxRecDepth 100000 in
/-- Witness of C15 on a request for a file that does not exist: status 404 and
the body is the 404 template (descriptor 10, 153 bytes). -/
theorem makeResponse_status_and_body_witness :
    ∃ c1, makeResponse (sampleEnv "text/html".toList)
        { sampleConnection "HTTP/1.1".toList [] with absolutePath := "/srv/missing".toList }
          = .ok c1 ∧
      c1.bodyOffset = 0 ∧ c1.responseStatusCode = 404 ∧
      ∃ file, (sampleEnv "text/html".toList).openFile
          ((sampleEnv "text/html".toList).htmlDir ++ "/error/404.html".toList) = .ok file ∧
        c1.bodyFd = file.fd ∧ c1.bodyLength = file.size :=
  have hrun : ∃ c1, makeResponse (sampleEnv "text/html".toList)
      { sampleConnection "HTTP/1.1".toList [] with absolutePath := "/srv/missing".toList }
        = .ok c1 := ⟨_, rfl⟩
  hrun.elim fun c1 h1 =>
    have hall := makeResponse_status_and_body (sampleEnv "text/html".toList)
      { sampleConnection "HTTP/1.1".toList [] with absolutePath := "/srv/missing".toList }
      c1 h1
    ⟨c1, h1, hall.1, hall.2.2.1 rfl⟩

end Response

/-! ## `peekQueueConnections` and `enqueueConnection` -/

/-- C17: `peekQueueConnections` leaves the queue as it is (the queue after the
call is the queue before it); on an empty queue it returns `{0, 0}`; on a
non-empty queue with the heap property it returns a live element whose
`priorityTime` is at most that of every live element. -/
theorem peekQueueConnections_frame_and_minimum (q : QueueConnectionsType) :
    (∀ r q1, peekQueueConnectionsState q = some (r, q1) →
      q1 = q ∧ peekQueueConnections q = some r) ∧
    (q.currentSize = 0 → peekQueueConnections q = some ⟨0, 0⟩) ∧
    (q.currentSize ≠ 0 → 0 < q.connections.length → HeapProperty q →
      ∃ r, peekQueueConnections q = some r ∧ r ∈ liveElements q ∧
        ∀ e ∈ liveElements q, r.priorityTime ≤ e.priorityTime) := by
  refine ⟨?_, ?_, ?_⟩
  · intro r q1 h
    unfold peekQueueConnectionsState at h
    split at h
    · cases h
    · rename_i element hp
      cases h
      exact ⟨rfl, hp⟩
  · intro h
    simp [peekQueueConnections, h]
  · intro hne hlen hh
    have hr : q.connections[0]? = some q.connections[0] := List.getElem?_eq_getElem hlen
    refine ⟨q.connections[0], ?_, mem_liveElements_of_getElem? (by omega) hr,
      root_le_live hh hr⟩
    simp only [peekQueueConnections, hne, if_false, hr]

/-- Witness of C17 on the scenario queue (root fd 4 at time 100). -/
theorem peekQueueConnections_frame_and_minimum_witness :
    ∃ r, peekQueueConnections scenarioQueue = some r ∧ r ∈ liveElements scenarioQueue ∧
      ∀ e ∈ liveElements scenarioQueue, r.priorityTime ≤ e.priorityTime :=
  (peekQueueConnections_frame_and_minimum scenarioQueue).2.2 (by decide) (by decide)
    (by
      intro i h0 hi
      have hi3 : i < 3 := hi
      interval_cases i <;> decide)

/-- C18: on a queue with `currentSize < capacity` (the heap array having at
least `capacity` slots) and an element whose descriptor is inside the slot
table, `enqueueConnection` succeeds, `currentSize` grows by exactly 1, the live
elements are the old ones plus the new element, `indexQueue[fd]` is a live slot
and that slot holds the new element, and the heap property is kept. Neither
the heap property nor the freshness of the descriptor is needed for the first
four facts. -/
theorem enqueueConnection_adds_element (q : QueueConnectionsType)
    (connection : QueueConnectionElementType)
    (hsize : q.currentSize < q.capacity) (hcap : q.capacity ≤ q.connections.length)
    (hfd : 0 ≤ connection.fd ∧ connection.fd < q.indexQueue.length) :
    ∃ q1, enqueueConnection q connection = some q1 ∧
      q1.currentSize = q.currentSize + 1 ∧
      (liveElements q1).Perm (connection :: liveElements q) ∧
      (∃ i : Nat, readIndexQueue q1 connection.fd = some (i : Int) ∧ i < q1.currentSize ∧
        q1.connections[i]? = some connection) ∧
      (HeapProperty q → HeapProperty q1) := by
  obtain ⟨q1, i1, hrun, hz, _, _, _, hperm, _, hheap, hi, hidx, hat⟩ :=
    enqueueConnection_spec q connection hsize hcap hfd
  exact ⟨q1, hrun, hz, hperm, ⟨i1, hidx, hi, hat⟩, hheap⟩

/-- Witness of C18: fd 7 at time 50 enters the scenario queue and becomes the
root. -/
theorem enqueueConnection_adds_element_witness :
    ∃ q1, enqueueConnection scenarioQueue ⟨7, 50⟩ = some q1 ∧
      q1.currentSize = scenarioQueue.currentSize + 1 ∧
      (liveElements q1).Perm (⟨7, 50⟩ :: liveElements scenarioQueue) ∧
      (∃ i : Nat, readIndexQueue q1 7 = some (i : Int) ∧ i < q1.currentSize ∧
        q1.connections[i]? = some ⟨7, 50⟩) ∧
      (HeapProperty scenarioQueue → HeapProperty q1) :=
  enqueueConnection_adds_element scenarioQueue ⟨7, 50⟩ (by decide) (by decide) (by decide)

/-! ## `readAll` and `sendAll` -/

namespace Helper

theorem readAllLoop_hard_errors (buffer : List Char) (total : Nat) (rest : Int)
    (hrest : 0 < rest) :
    ∀ n, readAllLoop (List.replicate n RecvResult.error) buffer total rest =
      .error .moreResults := by
  intro n
  induction n with
  | zero => simp [readAllLoop, hrest]
  | succ k ih =>
    rw [List.replicate_succ, readAllLoop]
    simp only [gt_iff_lt, hrest, if_true]
    exact ih

/-- C16 (`readAll` stops at the first hard error) fails on the code: the branch
for a hard error only logs, there is no `break`, and the loop calls `recv`
again. On the results hard error, 3 bytes, `EAGAIN` all three calls are made
and the 3 bytes are stored; and while `recv` keeps failing `readAll` never
returns, however many results are supplied. -/
theorem readAll_continues_after_hard_error :
    readAll [.error, .data "abc".toList, .eagain] (List.replicate 8 'x') 8 =
      .ok ("abc".toList ++ [Char.ofNat 0] ++ "xxxx".toList, []) ∧
    ∀ n, readAll (List.replicate n RecvResult.error) (List.replicate 8 'x') 8 =
      .error .moreResults := by
  constructor
  · rfl
  · intro n
    have h7 : toInt32 ((8 + 2 ^ 64 - 1) % 2 ^ 64) = 7 := by decide
    unfold readAll
    rw [h7, readAllLoop_hard_errors _ _ _ (by norm_num)]



theorem storeChunk_ok {buffer buffer1 chunk : List Char} {total : Nat}
    (h : storeChunk buffer total chunk = .ok buffer1) :
    total + chunk.length ≤ buffer.length ∧ buffer1.length = buffer.length ∧
      buffer1.take (total + chunk.length) = buffer.take total ++ chunk := by
  unfold storeChunk at h
  split at h
  · rename_i hle
    cases h
    refine ⟨hle, ?_, ?_⟩
    · simp only [List.length_append, List.length_take, List.length_drop]; omega
    · have hl : (buffer.take total ++ chunk).length = total + chunk.length := by
        simp only [List.length_append, List.length_take]; omega
      rw [← hl, List.take_left]
  · cases h

theorem readAllLoop_ok :
    ∀ (results : List RecvResult) (buffer : List Char) (total : Nat) (rest : Int)
      (buffer1 : List Char) (total1 : Nat) (rest1 : List RecvResult),
      total < buffer.length → (0 < rest → total + rest < buffer.length) →
      readAllLoop results buffer total rest = .ok (buffer1, total1, rest1) →
      ∃ consumed, results = consumed ++ rest1 ∧ buffer1.length = buffer.length ∧
        total1 < buffer.length ∧ total1 = total + (receivedBytes consumed).length ∧
        buffer1.take total1 = buffer.take total ++ receivedBytes consumed := by
  intro results
  induction results with
  | nil =>
    intro buffer total rest buffer1 total1 rest1 ht hr h
    rw [readAllLoop] at h
    split at h
    · cases h
    · cases h
      exact ⟨[], rfl, rfl, ht, by simp [receivedBytes], by simp [receivedBytes]⟩
  | cons r more ih =>
    intro buffer total rest buffer1 total1 rest1 ht hr h
    by_cases hpos : rest > 0
    · cases r with
      | eintr =>
        rw [readAllLoop, if_pos hpos] at h
        obtain ⟨consumed, hc, h1, h2, h3, h4⟩ := ih buffer total rest buffer1 total1 rest1 ht hr h
        exact ⟨.eintr :: consumed, by rw [hc]; rfl, h1, h2, by simpa [receivedBytes] using h3,
          by simpa [receivedBytes] using h4⟩
      | eagain =>
        rw [readAllLoop, if_pos hpos] at h
        cases h
        exact ⟨[.eagain], rfl, rfl, ht, by simp [receivedBytes], by simp [receivedBytes]⟩
      | error =>
        rw [readAllLoop, if_pos hpos] at h
        obtain ⟨consumed, hc, h1, h2, h3, h4⟩ := ih buffer total rest buffer1 total1 rest1 ht hr h
        exact ⟨.error :: consumed, by rw [hc]; rfl, h1, h2, by simpa [receivedBytes] using h3,
          by simpa [receivedBytes] using h4⟩
      | data chunk =>
        rw [readAllLoop, if_pos hpos] at h
        split at h
        · cases h
        · rename_i hfit
          split at h
          · rename_i hzero
            cases h
            have hnil : chunk = [] := List.length_eq_zero.mp hzero
            subst hnil
            exact ⟨[.data []], rfl, rfl, ht, by simp [receivedBytes], by simp [receivedBytes]⟩
          · rename_i hzero
            split at h
            · cases h
            · rename_i buffer2 hstore
              obtain ⟨hle, hl2, htake⟩ := storeChunk_ok hstore
              have hr0 := hr hpos
              obtain ⟨consumed, hc, h1, h2, h3, h4⟩ :=
                ih buffer2 (total + chunk.length) (rest - chunk.length) buffer1 total1 rest1
                  (by rw [hl2]; omega) (by intro _; rw [hl2]; push_cast; omega) h
              refine ⟨.data chunk :: consumed, by rw [hc]; rfl, by rw [h1, hl2],
                by rw [← hl2]; exact h2, ?_, ?_⟩
              · simp only [receivedBytes, List.length_append]; omega
              · rw [h4, htake]; simp [receivedBytes]
    · have hstop : readAllLoop (r :: more) buffer total rest = .ok (buffer, total, r :: more) := by
        cases r <;> rw [readAllLoop, if_neg hpos]
      rw [hstop] at h
      cases h
      exact ⟨[], rfl, rfl, ht, by simp [receivedBytes], by simp [receivedBytes]⟩

theorem readAllLoop_defined :
    ∀ (results : List RecvResult) (buffer : List Char) (total : Nat) (rest : Int),
      total < buffer.length → (0 < rest → total + rest < buffer.length) →
      readAllLoop results buffer total rest ≠ .error .undefinedBehaviour := by
  intro results
  induction results with
  | nil =>
    intro buffer total rest ht hr
    rw [readAllLoop]
    split <;> simp
  | cons r more ih =>
    intro buffer total rest ht hr
    by_cases hpos : rest > 0
    · cases r with
      | eintr => rw [readAllLoop, if_pos hpos]; exact ih buffer total rest ht hr
      | eagain => rw [readAllLoop, if_pos hpos]; simp
      | error => rw [readAllLoop, if_pos hpos]; exact ih buffer total rest ht hr
      | data chunk =>
        rw [readAllLoop, if_pos hpos]
        split
        · simp
        · rename_i hfit
          split
          · simp
          · have hr0 := hr hpos
            have hst : storeChunk buffer total chunk =
                .ok (buffer.take total ++ chunk ++ buffer.drop (total + chunk.length)) := by
              unfold storeChunk
              rw [if_pos (by omega)]
            rw [hst]
            simp only
            apply ih
            · simp only [List.length_append, List.length_take, List.length_drop]; omega
            · intro _
              simp only [List.length_append, List.length_take, List.length_drop]
              push_cast
              omega
    · have hstop : readAllLoop (r :: more) buffer total rest = .ok (buffer, total, r :: more) := by
        cases r <;> rw [readAllLoop, if_neg hpos]
      rw [hstop]
      simp

theorem toInt32_le (x : Nat) : toInt32 x ≤ x := by
  unfold toInt32
  split <;> omega

/-- C19: for an array of `bufferSize >= 1` bytes and any list of `recv`
results, `readAll` never writes outside the array; when it returns, with
`consumed` the results of the calls it made and `n` the number of bytes they
delivered, `n <= bufferSize - 1`, the first `n` bytes of the array are the
received chunks in order, and `buffer[n]` is the NUL terminator. -/
theorem readAll_stores_chunks_and_terminator (results : List RecvResult)
    (buffer : List Char) (bufferSize : Nat)
    (hsize : 1 ≤ bufferSize) (hlen : buffer.length = bufferSize) :
    readAll results buffer bufferSize ≠ .error .undefinedBehaviour ∧
    ∀ final rest, readAll results buffer bufferSize = .ok (final, rest) →
      ∃ consumed, results = consumed ++ rest ∧
        (receivedBytes consumed).length ≤ bufferSize - 1 ∧
        final.length = bufferSize ∧
        final.take (receivedBytes consumed).length = receivedBytes consumed ∧
        final[(receivedBytes consumed).length]? = some (Char.ofNat 0) := by
  have h0 : 0 < buffer.length := by omega
  have hrest : (0 : Int) < toInt32 ((bufferSize + 2 ^ 64 - 1) % 2 ^ 64) →
      ((0 : Nat) : Int) + toInt32 ((bufferSize + 2 ^ 64 - 1) % 2 ^ 64) < buffer.length := by
    intro _
    have h1 := toInt32_le ((bufferSize + 2 ^ 64 - 1) % 2 ^ 64)
    have h2 : (bufferSize + 2 ^ 64 - 1) % 2 ^ 64 ≤ bufferSize - 1 := by omega
    omega
  constructor
  · unfold readAll
    cases hloop : readAllLoop results buffer 0
        (toInt32 ((bufferSize + 2 ^ 64 - 1) % 2 ^ 64)) with
    | error e =>
      simp only
      intro he
      cases he
      exact readAllLoop_defined results buffer 0 _ h0 hrest hloop
    | ok r =>
      obtain ⟨buffer1, total1, rest1⟩ := r
      obtain ⟨consumed, _, h1, h2, _, _⟩ :=
        readAllLoop_ok results buffer 0 _ buffer1 total1 rest1 h0 hrest hloop
      simp only
      rw [if_pos (by omega)]
      simp
  · intro final rest h
    unfold readAll at h
    cases hloop : readAllLoop results buffer 0
        (toInt32 ((bufferSize + 2 ^ 64 - 1) % 2 ^ 64)) with
    | error e => rw [hloop] at h; cases h
    | ok r =>
      obtain ⟨buffer1, total1, rest1⟩ := r
      rw [hloop] at h
      simp only at h
      obtain ⟨consumed, hc, h1, h2, h3, h4⟩ :=
        readAllLoop_ok results buffer 0 _ buffer1 total1 rest1 h0 hrest hloop
      rw [if_pos (by omega)] at h
      cases h
      have htot : total1 = (receivedBytes consumed).length := by omega
      subst htot
      refine ⟨consumed, hc, by omega, by simp only [List.length_set]; omega, ?_, ?_⟩
      · rw [take_set_ge _ _ _ _ (le_refl _), h4]; simp
      · rw [List.getElem?_set_self (by omega)]

/-- Witness of C19: two chunks of 3 and 4 bytes fill an array of 8 bytes; the
third result is not consumed. -/
theorem readAll_stores_chunks_and_terminator_witness :
    ∃ final, readAll [.data "abc".toList, .data "defg".toList, .data "zz".toList]
        (List.replicate 8 'x') 8 = .ok (final, [.data "zz".toList]) ∧
      ∃ consumed,
        [RecvResult.data "abc".toList, .data "defg".toList, .data "zz".toList] =
          consumed ++ [.data "zz".toList] ∧
        (receivedBytes consumed).length ≤ 8 - 1 ∧
        final.length = 8 ∧
        final.take (receivedBytes consumed).length = receivedBytes consumed ∧
        final[(receivedBytes consumed).length]? = some (Char.ofNat 0) :=
  ⟨_, rfl, (readAll_stores_chunks_and_terminator
    [.data "abc".toList, .data "defg".toList, .data "zz".toList] (List.replicate 8 'x') 8
    (by decide) (by decide)).2 _ _ rfl⟩

/-- C20 (`sendAll` hands the array to the socket once, in order, resuming at
the first unsent byte) fails on the code: every call is
`send(fd, buffer, count, 0)`, from the first byte and for the full count. When
the socket accepts 4 of 10 bytes and then 6, `sendAll` returns 10 but the
socket has received `0123` followed by `012345`; when the second call accepts
all 10 bytes offered, `leftToWrite` wraps below zero and the loop asks for
more calls. A single complete send is transmitted correctly. -/
theorem sendAll_resends_from_the_start :
    sendAll [.bytes 4, .bytes 6] "0123456789".toList 10 =
      .ok (10, "0123012345".toList, []) ∧
    sendAll [.bytes 4, .bytes 10] "0123456789".toList 10 = .error .moreResults ∧
    sendAll [.bytes 10] "0123456789".toList 10 = .ok (10, "0123456789".toList, []) := by
  refine ⟨rfl, rfl, rfl⟩

end Helper

/-! ## The recorded header length -/

namespace Response

end Response

/-! ## The fresh queue -/

theorem overwriteLowBytes_all_ones (v : Int) : overwriteLowBytes 4 4 255 v = -1 := by
  have hlt : (v % 2 ^ 32).toNat < 2 ^ 32 := by omega
  have hdiv : (v % 2 ^ (8 * 4)).toNat / 2 ^ (8 * 4) = 0 := Nat.div_eq_of_lt (by simpa using hlt)
  unfold overwriteLowBytes
  simp only [hdiv]
  norm_num

theorem memsetInts_written :
    ∀ (table : List Int) (n i : Nat), 4 * (i + 1) ≤ n → i < table.length →
      (memsetInts n 255 table)[i]? = some (-1) := by
  intro table
  induction table with
  | nil => intro n i _ hi; simp at hi
  | cons x rest ih =>
    intro n i hn hi
    obtain ⟨m, hm⟩ : ∃ m, n = m + 1 := ⟨n - 1, by omega⟩
    subst hm
    rw [memsetInts]
    cases i with
    | zero =>
      have h4 : min (m + 1) 4 = 4 := by omega
      simp [h4, overwriteLowBytes_all_ones]
    | succ j =>
      simp only [List.getElem?_cons_succ]
      exact ih (m + 1 - 4) j (by omega) (by simpa using hi)

theorem memsetInts_untouched (byte : Nat) :
    ∀ (table : List Int) (n i : Nat), n ≤ 4 * i →
      (memsetInts n byte table)[i]? = table[i]? := by
  intro table
  induction table with
  | nil =>
    intro n i _
    cases n <;> simp [memsetInts]
  | cons x rest ih =>
    intro n i hn
    cases n with
    | zero => simp [memsetInts]
    | succ m =>
      rw [memsetInts]
      cases i with
      | zero => omega
      | succ j =>
        simp only [List.getElem?_cons_succ]
        exact ih (m + 1 - 4) j (by omega)

theorem memsetElements_untouched (byte : Nat) :
    ∀ (elements : List QueueConnectionElementType) (n i : Nat), n ≤ 16 * i →
      (memsetElements n byte elements)[i]? = elements[i]? := by
  intro elements
  induction elements with
  | nil =>
    intro n i _
    cases n <;> simp [memsetElements]
  | cons e rest ih =>
    intro n i hn
    cases n with
    | zero => simp [memsetElements]
    | succ m =>
      rw [memsetElements]
      cases i with
      | zero => omega
      | succ j =>
        simp only [List.getElem?_cons_succ]
        exact ih (m + 1 - 16) j (by omega)

/-- C22 (a fresh queue has every `indexQueue` entry at `-1` and every heap
slot zeroed) fails on the code: both `memset` calls pass `MAX_CONNECTIONS` as
the number of bytes. For every `MAX_CONNECTIONS >= 2`, `createQueueConnections`
sets `currentSize = 0` and `capacity = MAX_CONNECTIONS`, but only the table
entries that lie in the first `MAX_CONNECTIONS` bytes become `-1`: every entry
`i` with `4 * i >= MAX_CONNECTIONS`, and every heap slot `i` with
`16 * i >= MAX_CONNECTIONS`, keeps the bytes the variable held. With 8
connections and memory that held 7 in every entry, the table is
`-1, -1, 7, 7, 7, 7, 7, 7`: on the fresh queue `dequeueConnectionByFd(5)`
returns on its test for an empty queue, but after fd 0 has been enqueued it
reads slot 7 for the absent fd 5 and empties the queue. -/
theorem createQueueConnections_initialises_first_bytes_only :
    (∀ (MAX_CONNECTIONS : Nat) (uninitialised : QueueConnectionsType),
      2 ≤ MAX_CONNECTIONS → uninitialised.connections.length = MAX_CONNECTIONS →
      MAX_CONNECTIONS ≤ uninitialised.indexQueue.length →
      ∃ q, createQueueConnections MAX_CONNECTIONS uninitialised = some q ∧
        q.currentSize = 0 ∧ q.capacity = MAX_CONNECTIONS ∧
        (∀ i, 4 * (i + 1) ≤ MAX_CONNECTIONS → q.indexQueue[i]? = some (-1)) ∧
        (∀ i, MAX_CONNECTIONS ≤ 4 * i →
          q.indexQueue[i]? = uninitialised.indexQueue[i]?) ∧
        (∀ i, MAX_CONNECTIONS ≤ 16 * i →
          q.connections[i]? = uninitialised.connections[i]?)) ∧
    (∃ q0 q1, createQueueConnections 8 staleQueueMemory = some q0 ∧
      q0.indexQueue = [-1, -1, 7, 7, 7, 7, 7, 7] ∧
      q0.connections[0]? = some ⟨0, 77⟩ ∧
      dequeueConnectionByFd q0 5 = some q0 ∧
      applyOps q0 [.enqueue ⟨0, 10⟩, .dequeueByFd 5] = some q1 ∧ q1.currentSize = 0) := by
  constructor
  · intro n u hmax hconn hidx
    refine ⟨{ connections := memsetElements n 0 u.connections, currentSize := 0,
              capacity := n, indexQueue := memsetInts n 255 u.indexQueue }, ?_, rfl, rfl,
      ?_, ?_, ?_⟩
    · unfold createQueueConnections
      rw [if_pos ⟨by omega, by omega⟩]
    · intro i hi
      exact memsetInts_written _ n i hi (by omega)
    · intro i hi
      exact memsetInts_untouched 255 _ n i hi
    · intro i hi
      exact memsetElements_untouched 0 _ n i hi
  · refine ⟨⟨[⟨0, 77⟩, ⟨5, 77⟩, ⟨5, 77⟩, ⟨5, 77⟩, ⟨5, 77⟩, ⟨5, 77⟩, ⟨5, 77⟩, ⟨5, 77⟩], 0, 8,
        [-1, -1, 7, 7, 7, 7, 7, 7]⟩,
      ⟨[⟨0, 0⟩, ⟨5, 77⟩, ⟨5, 77⟩, ⟨5, 77⟩, ⟨5, 77⟩, ⟨5, 77⟩, ⟨5, 77⟩, ⟨0, 10⟩], 0, 8,
        [7, -1, 7, 7, 7, -1, 7, 7]⟩, by decide!, rfl, by decide, by decide, by decide!,
      rfl⟩

/-- Witness of C22 with `MAX_CONNECTIONS = 8` on memory that held 7 in every
table entry: entry 1 is `-1`, entry 2 is still 7. -/
theorem createQueueConnections_initialises_first_bytes_only_witness :
    ∃ q, createQueueConnections 8 staleQueueMemory = some q ∧
      q.currentSize = 0 ∧ q.capacity = 8 ∧
      q.indexQueue[1]? = some (-1) ∧ q.indexQueue[2]? = some 7 ∧
      q.connections[1]? = some ⟨5, 77⟩ :=
  (createQueueConnections_initialises_first_bytes_only.1 8 staleQueueMemory (by decide)
      (by decide) (by decide)).elim
    fun q h => ⟨q, h.1, h.2.1, h.2.2.1, h.2.2.2.1 1 (by decide),
      (h.2.2.2.2.1 2 (by decide)).trans (by decide),
      (h.2.2.2.2.2 1 (by decide)).trans (by decide)⟩
end UdServer
